import Mathlib

/-!
# WokiBrain availability & allocation engine — verification development

This file gives a shallow embedding, in Lean 4, of the core of the WokiBrain
booking engine (gap discovery over busy intervals, bounded combo generation,
deterministic candidate selection, the idempotency store, the commit pipeline
and its locking discipline), translated from the TypeScript sources, and
proves or refutes the stated properties of that code.

Timestamps are modelled as `Int` milliseconds since the epoch (the TypeScript
code works with `Date.getTime()` values); identifiers are `String`s.
JavaScript's `Array.prototype.sort` is stable (TimSort), which we model with a
stable insertion sort.
-/

namespace Woki

/-! ## Definitions (translated from the TypeScript sources) -/

/-- `TimeInterval` from `domain/types/time-interval.type.ts`: a half-open
span `[start, stop)`.  The source field `end` is a Lean keyword, so it is
named `stop` here. -/
structure TimeInterval where
  start : Int
  stop : Int
  deriving Repr, DecidableEq

/-- `BookingStatus` enum. -/
inductive BookingStatus where
  | confirmed
  | cancelled
  deriving Repr, DecidableEq

/-- The fields of `Booking` (entity `bookings`) that the gap/commit logic
reads: the tables it occupies, its half-open interval and its status. -/
structure Booking where
  tableIds : List String
  start : Int
  stop : Int
  status : BookingStatus
  deriving Repr, DecidableEq

/-- The interval of a booking. -/
def Booking.interval (b : Booking) : TimeInterval := ⟨b.start, b.stop⟩

/-- Two half-open intervals overlap iff `s1 < e2 ∧ s2 < e1`
(`intervalsOverlap` in `booking-command.service.ts`). -/
def overlaps (a b : TimeInterval) : Prop := a.start < b.stop ∧ b.start < a.stop

instance (a b : TimeInterval) : Decidable (overlaps a b) := by
  unfold overlaps; infer_instance

/-- `getDurationMinutes` from `gap-discovery.service.ts`:
`Math.floor((end - start) / 60000)` on millisecond timestamps. -/
def getDurationMinutes (i : TimeInterval) : Int :=
  Int.fdiv (i.stop - i.start) 60000

/-- Stable insertion by `start` (earlier-listed elements stay in front of
later ones with an equal key), the behaviour of JavaScript's stable
`sort((a, b) => a.start - b.start)`. -/
def insertByStart (x : TimeInterval) : List TimeInterval → List TimeInterval
  | [] => [x]
  | y :: ys => if x.start ≤ y.start then x :: y :: ys else y :: insertByStart x ys

/-- Stable sort by `start`, modelling `sort((a, b) => a.start - b.start)`. -/
def sortByStart (l : List TimeInterval) : List TimeInterval :=
  l.foldr insertByStart []

/-- The adjacent-pair walk of `findGapsInWindow` (steps 3–4): for each pair of
consecutive events emit `[prevEnd, nextStart)` whenever `prevEnd < nextStart`. -/
def walkGaps : List TimeInterval → List TimeInterval
  | [] => []
  | [_] => []
  | a :: b :: rest =>
    (if a.stop < b.start then [⟨a.stop, b.start⟩] else []) ++ walkGaps (b :: rest)

/-- `findGapsInWindow` from `gap-discovery.service.ts`: filter the bookings
that intersect the window, sort them, add zero-length sentinels at the window
bounds, sort the combined list, walk adjacent pairs, and keep gaps at least
`durationMinutes` long. -/
def findGapsInWindow (bookings : List TimeInterval) (window : TimeInterval)
    (durationMinutes : Int) : List TimeInterval :=
  let normalizedBookings :=
    sortByStart (bookings.filter fun b => b.start < window.stop && window.start < b.stop)
  let sentinels : List TimeInterval :=
    [⟨window.start, window.start⟩, ⟨window.stop, window.stop⟩]
  let allEvents := sortByStart (sentinels ++ normalizedBookings)
  (walkGaps allEvents).filter fun g => durationMinutes ≤ getDurationMinutes g

/-- The confirmed busy intervals of one table
(the `tableBookings` filter/map/sort in `findGapsForTable`). -/
def tableBusy (bookings : List Booking) (tableId : String) : List TimeInterval :=
  sortByStart ((bookings.filter fun b =>
    b.tableIds.contains tableId && b.status == BookingStatus.confirmed).map
      Booking.interval)

/-- `findGapsForTable` from `gap-discovery.service.ts`.  The service-window
computation (`getServiceWindowsForDate`, a timezone resolution of `HH:mm`
strings) is kept abstract: `windows` is its result, a list of UTC intervals.
Gaps are computed per window, concatenated, and re-sorted by start. -/
def findGapsForTable (bookings : List Booking) (tableId : String)
    (durationMinutes : Int) (windows : List TimeInterval) : List TimeInterval :=
  sortByStart (windows.foldr
    (fun w acc => findGapsInWindow (tableBusy bookings tableId) w durationMinutes ++ acc) [])

/-- `getOverlap` from `gap-discovery.service.ts`: the intersection
`[max(s1,s2), min(e1,e2))` when non-empty, else `none`. -/
def getOverlap (i1 i2 : TimeInterval) : Option TimeInterval :=
  let s := if i2.start < i1.start then i1.start else i2.start
  let e := if i1.stop < i2.stop then i1.stop else i2.stop
  if s < e then some ⟨s, e⟩ else none

/-- `intersectIntervals`: all pairwise non-empty overlaps. -/
def intersectIntervals (l1 l2 : List TimeInterval) : List TimeInterval :=
  l1.foldr (fun i1 acc =>
    (l2.foldr (fun i2 acc2 =>
      match getOverlap i1 i2 with
      | some o => o :: acc2
      | none => acc2) []) ++ acc) []

/-- Both the starts and the stops are ordered: the condition under which the
adjacent-pair walk of `findGapsInWindow` is sound. -/
def Rts (a b : TimeInterval) : Prop := a.start ≤ b.start ∧ a.stop ≤ b.stop

/-- The confirmed bookings of one table, before mapping to intervals
(the filter at the top of `findGapsForTable`). -/
def confirmedFor (bookings : List Booking) (tableId : String) : List Booking :=
  bookings.filter fun b =>
    b.tableIds.contains tableId && b.status == BookingStatus.confirmed

/-- `Table` entity: a seatable unit with a capacity range. -/
structure Table where
  id : String
  minSize : Int
  maxSize : Int
  deriving Repr, DecidableEq

/-- The candidate kind discriminator (`'single' | 'combo'`). -/
inductive CandidateKind where
  | single
  | combo
  deriving Repr, DecidableEq

/-- `ComboCandidate` from `domain/types/combo-candidate.type.ts`. -/
structure ComboCandidate where
  tableIds : List String
  minCapacity : Int
  maxCapacity : Int
  interval : TimeInterval
  kind : CandidateKind
  deriving Repr, DecidableEq

/-- `ComboCalculatorService.calculateCapacity`: the additive capacity range of
a combination (`reduce((sum, table) => sum + table.minSize, 0)` and likewise
for `maxSize`). -/
def calculateCapacity (tables : List Table) : Int × Int :=
  (tables.foldl (fun sum t => sum + t.minSize) 0,
   tables.foldl (fun sum t => sum + t.maxSize) 0)

/-- JavaScript string comparison (UTF-16 code-unit lexicographic, the order
used by `localeCompare` on ASCII ids and by the default `Array.sort`),
modelled on the character lists of the two strings. -/
def charListLe : List Char → List Char → Bool
  | [], _ => true
  | _ :: _, [] => false
  | c :: cs, d :: ds =>
    if c.toNat < d.toNat then true
    else if d.toNat < c.toNat then false
    else charListLe cs ds

/-- `a` compares less-or-equal to `b` as JavaScript strings. -/
def strLe (a b : String) : Bool := charListLe a.data b.data

/-- Generic stable insertion for a boolean "goes first" comparison,
modelling a JavaScript stable sort with comparator `cmp` where
`le x y = (cmp x y ≤ 0)`. -/
def insertLe {α : Type} (le : α → α → Bool) (x : α) : List α → List α
  | [] => [x]
  | y :: ys => if le x y then x :: y :: ys else y :: insertLe le x ys

/-- Generic stable insertion sort. -/
def sortLe {α : Type} (le : α → α → Bool) (l : List α) : List α :=
  l.foldr (insertLe le) []

/-- The descending-`maxSize` comparison `(a, b) => b.maxSize - a.maxSize`
used to order tables before the combination search. -/
def tableMaxDescLe (a b : Table) : Bool := b.maxSize ≤ a.maxSize

/-- Sum of `maxSize` over a list of tables (the inner pruning loop of
`generateTableCombinations` accumulates exactly this). -/
def sumMaxSize (l : List Table) : Int := l.foldl (fun s t => s + t.maxSize) 0

/-- The recursive `backtrack` of `BookingQueryService.generateTableCombinations`,
restructured from index recursion to list recursion: for each table `t` taken
from the remaining list, prune if even taking every remaining table cannot
reach `partySize`; otherwise record `current ++ [t]` when it has ≥ 2 members
and `newMin ≤ partySize ≤ newMax`, and recurse forward unless the hard size
cap (6) is reached. -/
def goCombos (partySize : Int) :
    List Table → List Table → Int → Int → List (List Table)
  | [], _, _, _ => []
  | t :: ts, current, currentMin, currentMax =>
    (if currentMax + t.maxSize + sumMaxSize ts < partySize then []
     else
       (if 2 ≤ (current ++ [t]).length ∧ currentMin + t.minSize ≤ partySize ∧
           partySize ≤ currentMax + t.maxSize
        then [current ++ [t]] else [])
       ++ (if (current ++ [t]).length = 6 then []
           else goCombos partySize ts (current ++ [t])
             (currentMin + t.minSize) (currentMax + t.maxSize)))
    ++ goCombos partySize ts current currentMin currentMax

/-- `generateTableCombinations`: keep only tables with positive `maxSize`,
require at least two of them, sort larger-first, and run the bounded
backtracking search. -/
def generateTableCombinations (tables : List Table) (partySize : Int) :
    List (List Table) :=
  let usefulTables := tables.filter fun t => 0 < t.maxSize
  if usefulTables.length < 2 then []
  else goCombos partySize (sortLe tableMaxDescLe usefulTables) [] 0 0

/-- `findComboGaps` from `gap-discovery.service.ts`. -/
def findComboGaps (bookings : List Booking) (tableIds : List String)
    (d : Int) (windows : List TimeInterval) : List TimeInterval :=
  match tableIds with
  | [] => []
  | [t] => findGapsForTable bookings t d windows
  | t :: ts =>
    let gapsByTable := (t :: ts).map fun tid => findGapsForTable bookings tid d windows
    if gapsByTable.any (fun gaps => gaps.isEmpty) then []
    else
      let intersection := ts.foldl
        (fun acc tid => intersectIntervals acc (findGapsForTable bookings tid d windows))
        (findGapsForTable bookings t d windows)
      intersection.filter fun gap => d ≤ getDurationMinutes gap

/-- The final `candidates.sort` comparator of `BookingQueryService.findCandidates`
as a "goes first" relation (`cmp a b ≤ 0`): singles before combos; among
singles earlier start then table id (`localeCompare`); among combos fewer
tables then earlier start. -/
def candORLe (a b : ComboCandidate) : Bool :=
  match a.kind, b.kind with
  | CandidateKind.single, CandidateKind.combo => true
  | CandidateKind.combo, CandidateKind.single => false
  | CandidateKind.single, CandidateKind.single =>
    if a.interval.start = b.interval.start
    then strLe (a.tableIds.headD "") (b.tableIds.headD "")
    else decide (a.interval.start < b.interval.start)
  | CandidateKind.combo, CandidateKind.combo =>
    if a.tableIds.length = b.tableIds.length
    then decide (a.interval.start ≤ b.interval.start)
    else decide (a.tableIds.length < b.tableIds.length)

/-- `BookingQueryService.findCandidates`: single-table candidates for every
table whose capacity range admits the party, one per (re-sorted) free gap;
combo candidates for every generated combination whose additive capacity
admits the party, one per combo gap; the union sorted by the WokiBrain
comparator. -/
def findCandidates (tables : List Table) (bookings : List Booking)
    (durationMinutes partySize : Int) (windows : List TimeInterval) :
    List ComboCandidate :=
  let singles := tables.foldr (fun table acc =>
    if table.minSize ≤ partySize ∧ partySize ≤ table.maxSize then
      (sortByStart (findGapsForTable bookings table.id durationMinutes windows)).map
        (fun gap => ComboCandidate.mk [table.id] table.minSize table.maxSize gap
          CandidateKind.single) ++ acc
    else acc) []
  let combos := (generateTableCombinations tables partySize).foldr (fun combo acc =>
    if (calculateCapacity combo).1 ≤ partySize ∧ partySize ≤ (calculateCapacity combo).2 then
      (findComboGaps bookings (combo.map Table.id) durationMinutes windows).map
        (fun gap => ComboCandidate.mk (combo.map Table.id) (calculateCapacity combo).1
          (calculateCapacity combo).2 gap CandidateKind.combo) ++ acc
    else acc) []
  sortLe candORLe (singles ++ combos)

/-- The comparison of the singles sort in `selectBestCandidate`
(`(a, b) => a.interval.start.getTime() - b.interval.start.getTime()`). -/
def candStartLe (a b : ComboCandidate) : Bool :=
  decide (a.interval.start ≤ b.interval.start)

/-- The comparison of the combos sort in `selectBestCandidate`
(fewer tables first, then earlier start). -/
def candComboLe (a b : ComboCandidate) : Bool :=
  if a.tableIds.length = b.tableIds.length
  then decide (a.interval.start ≤ b.interval.start)
  else decide (a.tableIds.length < b.tableIds.length)

/-- `WokiBrainSelectorService.selectBestCandidate`: prefer singles over
combos; among singles the earliest slot (stable sort, first element); among
combos the fewest tables then the earliest slot. -/
def selectBestCandidate (candidates : List ComboCandidate) :
    Option ComboCandidate :=
  if candidates.length = 0 then none
  else if 0 < (candidates.filter fun c => c.kind == CandidateKind.single).length then
    (sortLe candStartLe (candidates.filter fun c => c.kind == CandidateKind.single)).head?
  else if 0 < (candidates.filter fun c => c.kind == CandidateKind.combo).length then
    (sortLe candComboLe (candidates.filter fun c => c.kind == CandidateKind.combo)).head?
  else none

/-- The error taxonomy of the service layer. -/
inductive ApiError where
  | invalidInput
  | notFound
  | noCapacity
  | tableLocked
  | outsideServiceWindow
  deriving Repr, DecidableEq

/-- The `Idempotency` entity: key, payload fingerprint, expiry instant and the
cached booking. -/
structure Idempotency where
  id : String
  payloadHash : String
  expiresAt : Int
  booking : Booking
  deriving Repr, DecidableEq

/-- `TTL_MS = 60 * 1000` from `idempotency.service.ts`. -/
def TTL_MS : Int := 60 * 1000

/-- `IdempotencyRepository.findById`: lookup by primary key. -/
def repoFindById (store : List Idempotency) (key : String) : Option Idempotency :=
  store.find? fun e => e.id == key

/-- `IdempotencyRepository.deleteExpired`: remove every entry with
`expiresAt < now`. -/
def repoDeleteExpired (store : List Idempotency) (now : Int) : List Idempotency :=
  store.filter fun e => ¬ (e.expiresAt < now)

/-- `IdempotencyService.get`.  The SHA-256 payload fingerprint is abstracted
as an explicit function `hashPayload`; `now` is the instant of the call
(`new Date()`).  Returns the result together with the store after the lazy
reclamation performed on the expired path. -/
def idemGet (hashPayload : String → String) (store : List Idempotency)
    (now : Int) (key payload : String) :
    Except ApiError (Option Booking × List Idempotency) :=
  match repoFindById store key with
  | none => Except.ok (none, store)
  | some entry =>
    if entry.expiresAt < now then
      Except.ok (none, repoDeleteExpired store now)
    else if hashPayload payload ≠ entry.payloadHash then
      Except.error ApiError.invalidInput
    else
      Except.ok (some entry.booking, store)

/-- `IdempotencyService.set`: store an entry under `key` expiring at
`now + TTL_MS` (the repository `save` upserts by primary key; the
fire-and-forget `deleteExpired` cleanup is not awaited and is omitted). -/
def idemSet (hashPayload : String → String) (store : List Idempotency)
    (now : Int) (key : String) (booking : Booking) (payload : String) :
    List Idempotency :=
  (store.filter fun e => ¬ (e.id == key))
    ++ [Idempotency.mk key (hashPayload payload) (now + TTL_MS) booking]

/-- The observable effects (I/O and locking) of one commit or discovery
request, in the order the services perform them. -/
inductive Step where
  | idemGet
  | readRestaurant
  | readSector
  | readTables
  | readBookings
  | readBlackouts
  | readServiceWindows
  | candidateSearch
  | lockAcquire (key : String)
  | readBookingsReverify
  | readBlackoutsReverify
  | persistBooking
  | idemSet
  | lockRelease
  deriving Repr, DecidableEq

/-- The terminal outcome of one request. -/
inductive Outcome where
  | created
  | replayed
  | completed
  | rejected (e : ApiError)
  deriving Repr, DecidableEq

/-- Result of the idempotency lookup as seen by `createBooking`. -/
inductive IdemLookup where
  | miss
  | hit
  | mismatch
  deriving Repr, DecidableEq

/-- The responses of the external collaborators during one commit attempt. -/
structure CommitEnv where
  idemResult : IdemLookup
  restaurantExists : Bool
  sectorOk : Bool
  candidate : Option ComboCandidate
  lockTimeout : Bool
  reverifyOk : Bool
  deriving Repr, DecidableEq

/-- A commit request after the HTTP layer's shape validation: the date has
already matched the regex `\d{4}-\d{2}-\d{2}` and is carried as its three
numeric fields. -/
structure CreateBookingRequest where
  restaurantId : String
  sectorId : String
  partySize : Int
  durationMinutes : Int
  dateY : Nat
  dateM : Nat
  dateD : Nat
  deriving Repr, DecidableEq

/-- Leap-year rule used by `Date`/`parseISO` calendar validation. -/
def isLeapYear (y : Nat) : Bool :=
  (y % 4 == 0 && y % 100 != 0) || y % 400 == 0

/-- Days in a month. -/
def daysInMonth (y m : Nat) : Nat :=
  if m == 2 then (if isLeapYear y then 29 else 28)
  else if m == 4 || m == 6 || m == 9 || m == 11 then 30
  else 31

/-- `parseISO` yields a valid instant for a regex-shaped `YYYY-MM-DD` string
iff the month and day are in calendar range (otherwise `Invalid Date`,
detected by the `isNaN(date.getTime())` check). -/
def parseISOValid (y m d : Nat) : Bool :=
  1 ≤ m && m ≤ 12 && 1 ≤ d && d ≤ daysInMonth y m

/-- `createLockKey` from `booking-command.service.ts`:
`restaurantId|sectorId|sortedTableIds.join('+')|startISO`.  The ISO rendering
of the start instant is abstracted to the decimal rendering of its
millisecond value (both injective in the instant). -/
def createLockKey (restaurantId sectorId : String) (tableIds : List String)
    (start : Int) : String :=
  restaurantId ++ "|" ++ sectorId ++ "|"
    ++ String.intercalate "+" (sortLe strLe tableIds) ++ "|" ++ toString start

/-- The Zod `CreateBookingSchema` checks performed by the controller before
the service is called (non-empty ids, positive integer party size and
duration; the date-shape regex is encoded in the request type). -/
def zodCreateOk (req : CreateBookingRequest) : Bool :=
  req.restaurantId ≠ "" && req.sectorId ≠ ""
    && 0 < req.partySize && 0 < req.durationMinutes

/-- The body of `BookingCommandService.createBooking` after the duration
checks and the idempotency lookup, starting at the `parseISO` date check;
`trace` holds the steps already performed. -/
def createBookingAfterIdem (req : CreateBookingRequest) (key : Option String)
    (env : CommitEnv) (trace : List Step) : List Step × Outcome :=
  if ¬ parseISOValid req.dateY req.dateM req.dateD then
    (trace, Outcome.rejected ApiError.invalidInput)
  else if ¬ env.restaurantExists then
    (trace ++ [Step.readRestaurant], Outcome.rejected ApiError.notFound)
  else if ¬ env.sectorOk then
    (trace ++ [Step.readRestaurant, Step.readSector],
      Outcome.rejected ApiError.notFound)
  else
    match env.candidate with
    | none =>
      (trace ++ [Step.readRestaurant, Step.readSector, Step.readBookings,
        Step.readBlackouts, Step.candidateSearch],
        Outcome.rejected ApiError.noCapacity)
    | some cand =>
      if env.lockTimeout then
        (trace ++ [Step.readRestaurant, Step.readSector, Step.readBookings,
          Step.readBlackouts, Step.candidateSearch,
          Step.lockAcquire (createLockKey req.restaurantId req.sectorId
            cand.tableIds cand.interval.start)],
          Outcome.rejected ApiError.tableLocked)
      else if ¬ env.reverifyOk then
        (trace ++ [Step.readRestaurant, Step.readSector, Step.readBookings,
          Step.readBlackouts, Step.candidateSearch,
          Step.lockAcquire (createLockKey req.restaurantId req.sectorId
            cand.tableIds cand.interval.start),
          Step.readBookingsReverify, Step.readBlackoutsReverify,
          Step.lockRelease],
          Outcome.rejected ApiError.noCapacity)
      else
        (trace ++ [Step.readRestaurant, Step.readSector, Step.readBookings,
          Step.readBlackouts, Step.candidateSearch,
          Step.lockAcquire (createLockKey req.restaurantId req.sectorId
            cand.tableIds cand.interval.start),
          Step.readBookingsReverify, Step.readBlackoutsReverify,
          Step.persistBooking]
          ++ (if key.isSome then [Step.idemSet] else []) ++ [Step.lockRelease],
          Outcome.created)

/-- `BookingCommandService.createBooking`: the duration checks run first,
then (when a key is present) the idempotency lookup, then the date check and
the rest of the pipeline.  The candidate-search step stands for the table and
service-window reads, the window validation, gap discovery, combo generation
and selection. -/
def serviceCreateBooking (req : CreateBookingRequest) (key : Option String)
    (env : CommitEnv) : List Step × Outcome :=
  if ¬ (req.durationMinutes % 15 == 0) then
    ([], Outcome.rejected ApiError.invalidInput)
  else if req.durationMinutes < 30 || 180 < req.durationMinutes then
    ([], Outcome.rejected ApiError.invalidInput)
  else
    match key with
    | some _ =>
      match env.idemResult with
      | IdemLookup.mismatch => ([Step.idemGet], Outcome.rejected ApiError.invalidInput)
      | IdemLookup.hit => ([Step.idemGet], Outcome.replayed)
      | IdemLookup.miss => createBookingAfterIdem req key env [Step.idemGet]
    | none => createBookingAfterIdem req key env []

/-- `idempotencyKey.trim() === \'\'`: every character is whitespace
(so trimming leaves the empty string). -/
def keyBlank (k : String) : Bool :=
  k.data.all fun c =>
    c.toNat == 32 || c.toNat == 9 || c.toNat == 10 || c.toNat == 13

/-- The controller's guard `!idempotencyKey || idempotencyKey.trim() === \'\'`. -/
def keyMissingOrBlank (key : Option String) : Bool :=
  match key with
  | none => true
  | some k => keyBlank k

/-- `WokiController.createBooking`: requires a non-blank `Idempotency-Key`
header, then applies the Zod schema, then calls the service. -/
def controllerCreateBooking (req : CreateBookingRequest) (key : Option String)
    (env : CommitEnv) : List Step × Outcome :=
  if keyMissingOrBlank key then
    ([], Outcome.rejected ApiError.invalidInput)
  else if ¬ zodCreateOk req then
    ([], Outcome.rejected ApiError.invalidInput)
  else serviceCreateBooking req key env

/-- A discovery request after the HTTP layer's shape validation. -/
structure DiscoverQuery where
  restaurantId : String
  sectorId : String
  partySize : Int
  duration : Int
  dateY : Nat
  dateM : Nat
  dateD : Nat
  deriving Repr, DecidableEq

/-- Collaborator responses during one discovery request. -/
structure DiscoverEnv where
  restaurantExists : Bool
  sectorOk : Bool
  tablesEmpty : Bool
  windowOk : Bool
  deriving Repr, DecidableEq

/-- The Zod `DiscoverSeatsQuerySchema` checks. -/
def zodDiscoverOk (q : DiscoverQuery) : Bool :=
  q.restaurantId ≠ "" && q.sectorId ≠ "" && 0 < q.partySize && 0 < q.duration

/-- `BookingQueryService.discoverSeats` behind the controller's Zod parse:
date validity first, then the duration checks, then the reads, the early
return on an empty sector, the window validation and the candidate search. -/
def discoverSeatsTrace (q : DiscoverQuery) (env : DiscoverEnv) :
    List Step × Outcome :=
  if ¬ zodDiscoverOk q then ([], Outcome.rejected ApiError.invalidInput)
  else if ¬ parseISOValid q.dateY q.dateM q.dateD then
    ([], Outcome.rejected ApiError.invalidInput)
  else if ¬ (q.duration % 15 == 0) then ([], Outcome.rejected ApiError.invalidInput)
  else if q.duration < 30 || 180 < q.duration then
    ([], Outcome.rejected ApiError.invalidInput)
  else if ¬ env.restaurantExists then
    ([Step.readRestaurant], Outcome.rejected ApiError.notFound)
  else if ¬ env.sectorOk then
    ([Step.readRestaurant, Step.readSector], Outcome.rejected ApiError.notFound)
  else if env.tablesEmpty then
    ([Step.readRestaurant, Step.readSector, Step.readTables], Outcome.completed)
  else if ¬ env.windowOk then
    ([Step.readRestaurant, Step.readSector, Step.readTables, Step.readBookings,
      Step.readServiceWindows],
      Outcome.rejected ApiError.outsideServiceWindow)
  else
    ([Step.readRestaurant, Step.readSector, Step.readTables, Step.readBookings,
      Step.readServiceWindows, Step.candidateSearch], Outcome.completed)

/-- The lock-acquisition keys of a step trace, in order. -/
def lockAcquireKeys (steps : List Step) : List String :=
  steps.filterMap fun st =>
    match st with
    | Step.lockAcquire k => some k
    | _ => none

/-- The booking fields read by cancellation: primary key and status. -/
structure BookingRec where
  id : String
  status : BookingStatus
  deriving Repr, DecidableEq

/-- `BookingRepository.findById`. -/
def bookingFindById (store : List BookingRec) (id : String) : Option BookingRec :=
  store.find? fun b => b.id == id

/-- `BookingRepository.delete`: removes the record with the given id. -/
def bookingDelete (store : List BookingRec) (id : String) : List BookingRec :=
  store.filter fun b => ¬ (b.id == id)

/-- `IdempotencyRepository.nullifyBookingId`: set `bookingId` to null on
every idempotency record referencing the booking (modelled as
(key, bookingId) pairs). -/
def nullifyBookingId (idem : List (String × Option String))
    (bookingId : String) : List (String × Option String) :=
  idem.map fun e => if e.2 == some bookingId then (e.1, none) else e

/-- `BookingCommandService.cancelBooking`: look the booking up (404 when
absent), nullify the idempotency records that reference it, then *delete*
the booking record. -/
def cancelBooking (bookings : List BookingRec)
    (idem : List (String × Option String)) (id : String) :
    Except ApiError (List BookingRec × List (String × Option String)) :=
  match bookingFindById bookings id with
  | none => Except.error ApiError.notFound
  | some _ => Except.ok (bookingDelete bookings id, nullifyBookingId idem id)

/-- Terminal result of one commit attempt in the race model. -/
inductive AttemptResult where
  | success
  | noCapacity
  | tableLocked
  deriving Repr, DecidableEq

/-- Control state of one commit attempt, from lock acquisition on (both
attempts have already discovered the same single candidate). -/
inductive ProcPhase where
  | ready
  | locked
  | checked (ok : Bool)
  | done (r : AttemptResult)
  deriving Repr, DecidableEq

/-- Shared state: who holds the candidate's lock key, the booking store, and
each attempt's control state (attempts are named by `Bool`). -/
structure RaceState where
  lock : Option Bool
  bookings : List Booking
  pc : Bool → ProcPhase

/-- Pointwise update of a process's control state. -/
def setPc (pc : Bool → ProcPhase) (i : Bool) (v : ProcPhase) :
    Bool → ProcPhase :=
  fun j => if j = i then v else pc j

/-- The re-verification filter of `createBooking`: confirmed bookings using
one of the candidate's tables. -/
def relevantBookings (cand : ComboCandidate) (bs : List Booking) :
    List Booking :=
  bs.filter fun b =>
    b.status == BookingStatus.confirmed
      && b.tableIds.any fun tid => cand.tableIds.contains tid

/-- `verifyCapacityStillAvailable`: no relevant booking and no relevant
blackout overlaps the candidate's interval. -/
def stillAvailable (cand : ComboCandidate) (blackouts : List TimeInterval)
    (bs : List Booking) : Bool :=
  ((relevantBookings cand bs).filter fun b =>
      decide (overlaps cand.interval b.interval)).isEmpty
    && (blackouts.filter fun bl => decide (overlaps cand.interval bl)).isEmpty

/-- The booking written by a successful commit of the candidate. -/
def candBooking (cand : ComboCandidate) : Booking :=
  Booking.mk cand.tableIds cand.interval.start cand.interval.stop
    BookingStatus.confirmed

/-- One interleaving step of the two racing commit attempts.  An attempt
acquires the (single, shared) lock key when free, or times out while the
other attempt holds it; holding the lock it re-verifies against the current
bookings, then either persists its booking and releases, or aborts with
`no_capacity` and releases. -/
inductive RaceStep (cand : ComboCandidate) (blackouts : List TimeInterval) :
    RaceState → RaceState → Prop where
  | acquire (i : Bool) (s : RaceState) :
      s.pc i = ProcPhase.ready → s.lock = none →
      RaceStep cand blackouts s
        (RaceState.mk (some i) s.bookings (setPc s.pc i ProcPhase.locked))
  | timeout (i : Bool) (s : RaceState) :
      s.pc i = ProcPhase.ready → s.lock = some (!i) →
      RaceStep cand blackouts s
        (RaceState.mk s.lock s.bookings
          (setPc s.pc i (ProcPhase.done AttemptResult.tableLocked)))
  | reverify (i : Bool) (s : RaceState) :
      s.pc i = ProcPhase.locked → s.lock = some i →
      RaceStep cand blackouts s
        (RaceState.mk s.lock s.bookings
          (setPc s.pc i (ProcPhase.checked
            (stillAvailable cand blackouts s.bookings))))
  | persist (i : Bool) (s : RaceState) :
      s.pc i = ProcPhase.checked true → s.lock = some i →
      RaceStep cand blackouts s
        (RaceState.mk none (s.bookings ++ [candBooking cand])
          (setPc s.pc i (ProcPhase.done AttemptResult.success)))
  | abort (i : Bool) (s : RaceState) :
      s.pc i = ProcPhase.checked false → s.lock = some i →
      RaceStep cand blackouts s
        (RaceState.mk none s.bookings
          (setPc s.pc i (ProcPhase.done AttemptResult.noCapacity)))

/-- Reflexive-transitive closure of the race step relation. -/
inductive RaceReach (cand : ComboCandidate) (blackouts : List TimeInterval) :
    RaceState → RaceState → Prop where
  | refl (s : RaceState) : RaceReach cand blackouts s s
  | tail {s t u : RaceState} : RaceReach cand blackouts s t →
      RaceStep cand blackouts t u → RaceReach cand blackouts s u

/-- Both attempts start before lock acquisition over the same store. -/
def raceInit (bs : List Booking) : RaceState :=
  RaceState.mk none bs (fun _ => ProcPhase.ready)

/-- The race invariant: lock ownership matches control states; a successful
attempt has made the store conflict with the candidate; a positive check
certifies no conflict; failed checks and `no_capacity` results imply the
other attempt already succeeded; at most one attempt succeeds; a timed-out
attempt's rival was mid-commit. -/
def RaceInv (cand : ComboCandidate) (blackouts : List TimeInterval)
    (s : RaceState) : Prop :=
  (∀ i, s.lock = some i →
    s.pc i = ProcPhase.locked ∨ ∃ b, s.pc i = ProcPhase.checked b)
  ∧ (∀ i, (s.pc i = ProcPhase.locked ∨ (∃ b, s.pc i = ProcPhase.checked b)) →
      s.lock = some i)
  ∧ (∀ i, s.pc i = ProcPhase.done AttemptResult.success →
      stillAvailable cand blackouts s.bookings = false)
  ∧ (∀ i, s.pc i = ProcPhase.checked true →
      stillAvailable cand blackouts s.bookings = true)
  ∧ (∀ i, s.pc i = ProcPhase.checked false →
      s.pc (!i) = ProcPhase.done AttemptResult.success)
  ∧ (∀ i, s.pc i = ProcPhase.done AttemptResult.noCapacity →
      s.pc (!i) = ProcPhase.done AttemptResult.success)
  ∧ (stillAvailable cand blackouts s.bookings = false →
      ∃ j, s.pc j = ProcPhase.done AttemptResult.success)
  ∧ ¬ (s.pc true = ProcPhase.done AttemptResult.success
        ∧ s.pc false = ProcPhase.done AttemptResult.success)
  ∧ (∀ i, s.pc i = ProcPhase.done AttemptResult.tableLocked →
      s.pc (!i) ≠ ProcPhase.ready
        ∧ s.pc (!i) ≠ ProcPhase.done AttemptResult.tableLocked)

/-- A concrete candidate, single table `"T1"` at `[0, 3600000)`. -/
def C2cand : ComboCandidate :=
  ComboCandidate.mk ["T1"] 2 2 (TimeInterval.mk 0 3600000) CandidateKind.single

/-- The states of a concrete interleaving: attempt `false` acquires,
re-verifies, persists and releases; attempt `true` then acquires,
re-verifies against the new booking, aborts and releases. -/
def C2s1 : RaceState :=
  RaceState.mk (some false) (raceInit []).bookings
    (setPc (raceInit []).pc false ProcPhase.locked)

def C2s2 : RaceState :=
  RaceState.mk C2s1.lock C2s1.bookings
    (setPc C2s1.pc false (ProcPhase.checked (stillAvailable C2cand [] C2s1.bookings)))

def C2s3 : RaceState :=
  RaceState.mk none (C2s2.bookings ++ [candBooking C2cand])
    (setPc C2s2.pc false (ProcPhase.done AttemptResult.success))

def C2s4 : RaceState :=
  RaceState.mk (some true) C2s3.bookings (setPc C2s3.pc true ProcPhase.locked)

def C2s5 : RaceState :=
  RaceState.mk C2s4.lock C2s4.bookings
    (setPc C2s4.pc true (ProcPhase.checked (stillAvailable C2cand [] C2s4.bookings)))

def C2s6 : RaceState :=
  RaceState.mk none C2s5.bookings
    (setPc C2s5.pc true (ProcPhase.done AttemptResult.noCapacity))

/-! ## Theorems -/

theorem insertByStart_perm (x : TimeInterval) (l : List TimeInterval) :
    List.Perm (insertByStart x l) (x :: l) := by
  induction l with
  | nil => simp [insertByStart]
  | cons y ys ih =>
    simp only [insertByStart]
    split
    · exact List.Perm.refl _
    · exact ((ih.cons y).trans (List.Perm.swap x y ys))

theorem sortByStart_perm (l : List TimeInterval) : List.Perm (sortByStart l) l := by
  induction l with
  | nil => simp [sortByStart]
  | cons a as ih =>
    have h : sortByStart (a :: as) = insertByStart a (sortByStart as) := rfl
    rw [h]
    exact (insertByStart_perm a (sortByStart as)).trans (ih.cons a)

theorem insertByStart_pairwise (x : TimeInterval) (l : List TimeInterval)
    (h : l.Pairwise (fun a b => a.start ≤ b.start)) :
    (insertByStart x l).Pairwise (fun a b => a.start ≤ b.start) := by
  induction l with
  | nil => simp [insertByStart]
  | cons y ys ih =>
    simp only [insertByStart]
    rcases List.pairwise_cons.mp h with ⟨hy, hys⟩
    split
    · refine List.pairwise_cons.mpr ⟨?_, h⟩
      intro b hb
      rcases List.mem_cons.mp hb with rfl | hb
      · assumption
      · exact le_trans (by assumption) (hy b hb)
    · refine List.pairwise_cons.mpr ⟨?_, ih hys⟩
      intro b hb
      have hb' := (insertByStart_perm x ys).mem_iff.mp hb
      rcases List.mem_cons.mp hb' with rfl | hb'
      · omega
      · exact hy b hb'

theorem sortByStart_pairwise (l : List TimeInterval) :
    (sortByStart l).Pairwise (fun a b => a.start ≤ b.start) := by
  induction l with
  | nil => simp [sortByStart]
  | cons a as ih => exact insertByStart_pairwise a (sortByStart as) ih

theorem insertByStart_front (x : TimeInterval) (l : List TimeInterval)
    (h : ∀ y ∈ l, x.start ≤ y.start) : insertByStart x l = x :: l := by
  cases l with
  | nil => rfl
  | cons y ys =>
    simp only [insertByStart]
    rw [if_pos (h y (List.mem_cons_self y ys))]

theorem insertByStart_back (x : TimeInterval) (l : List TimeInterval)
    (h : ∀ y ∈ l, y.start < x.start) : insertByStart x l = l ++ [x] := by
  induction l with
  | nil => rfl
  | cons y ys ih =>
    simp only [insertByStart]
    have hy := h y (List.mem_cons_self y ys)
    rw [if_neg (by omega)]
    rw [ih fun z hz => h z (List.mem_cons_of_mem y hz)]
    rfl

theorem walkGaps_spec (l : List TimeInterval) (h : l.Pairwise Rts) :
    ∀ g ∈ walkGaps l, (∀ ev ∈ l, ¬ overlaps g ev)
      ∧ (∃ ev ∈ l, g.start = ev.stop) ∧ (∃ ev ∈ l, g.stop = ev.start) := by
  induction l with
  | nil => intro g hg; simp [walkGaps] at hg
  | cons a rest ih =>
    cases rest with
    | nil => intro g hg; simp [walkGaps] at hg
    | cons b rest' =>
      intro g hg
      simp only [walkGaps, List.mem_append] at hg
      rcases List.pairwise_cons.mp h with ⟨ha, htail⟩
      rcases hg with hg | hg
      · -- the gap between a and b
        have hab : a.stop < b.start := by
          by_contra hc
          rw [if_neg hc] at hg
          simp at hg
        rw [if_pos hab] at hg
        simp only [List.mem_singleton] at hg
        subst hg
        refine ⟨?_, ⟨a, by simp, rfl⟩, ⟨b, by simp, rfl⟩⟩
        intro ev hev hov
        rcases List.mem_cons.mp hev with rfl | hev
        · exact absurd hov.1 (by simp)
        · rcases List.mem_cons.mp hev with rfl | hev
          · exact absurd hov.2 (by simp)
          · have hbe : Rts b ev := (List.pairwise_cons.mp htail).1 ev hev
            have h1 : ev.start < b.start := hov.2
            have h2 : b.start ≤ ev.start := hbe.1
            omega
      · -- a gap from the tail walk
        have hspec := ih htail g hg
        rcases hspec with ⟨hdis, ⟨ev₀, hev₀, hst⟩, ⟨ev₁, hev₁, hsp⟩⟩
        refine ⟨?_, ⟨ev₀, List.mem_cons_of_mem a hev₀, hst⟩,
          ⟨ev₁, List.mem_cons_of_mem a hev₁, hsp⟩⟩
        intro ev hev hov
        rcases List.mem_cons.mp hev with rfl | hev
        · -- the element in front: ev.stop ≤ ev₀.stop = g.start < ev.stop
          have hae : Rts ev ev₀ := ha ev₀ hev₀
          have h1 : g.start < ev.stop := hov.1
          have h2 : ev.stop ≤ ev₀.stop := hae.2
          omega
        · exact hdis ev hev hov

theorem walkGaps_append_of_getLast (l : List TimeInterval) (x z : TimeInterval)
    (h : l.getLast? = some z) :
    walkGaps (l ++ [x]) = walkGaps l ++
      (if z.stop < x.start then [TimeInterval.mk z.stop x.start] else []) := by
  induction l with
  | nil => simp at h
  | cons a rest ih =>
    cases rest with
    | nil =>
      simp only [List.getLast?_singleton, Option.some.injEq] at h
      subst h
      simp [walkGaps]
    | cons b rest' =>
      rw [List.getLast?_cons_cons] at h
      have heq : (a :: b :: rest') ++ [x] = a :: ((b :: rest') ++ [x]) := rfl
      rw [heq]
      show (if a.stop < b.start then [TimeInterval.mk a.stop b.start] else []) ++
          walkGaps ((b :: rest') ++ [x]) = _
      rw [ih h]
      simp [walkGaps, List.append_assoc]

theorem sortByStart_of_sorted (l : List TimeInterval)
    (h : l.Pairwise (fun a b => a.start ≤ b.start)) : sortByStart l = l := by
  induction l with
  | nil => rfl
  | cons a as ih =>
    have hs : sortByStart (a :: as) = insertByStart a (sortByStart as) := rfl
    rcases List.pairwise_cons.mp h with ⟨ha, has⟩
    rw [hs, ih has, insertByStart_front a as ha]

/-- Symmetry of interval overlap. -/
theorem overlaps_symm {a b : TimeInterval} (h : overlaps a b) : overlaps b a :=
  ⟨h.2, h.1⟩

/-- Soundness of `findGapsInWindow` for one window: if the busy intervals are
non-empty, pairwise non-overlapping, and none of them starts before the start
of a window it intersects, then every returned gap is disjoint from every busy
interval. -/
theorem findGapsInWindow_disjoint (busy : List TimeInterval) (w : TimeInterval)
    (d : Int)
    (hwne : w.start ≤ w.stop)
    (hne : ∀ b ∈ busy, b.start < b.stop)
    (hdisj : busy.Pairwise (fun a b => ¬ overlaps a b))
    (hwin : ∀ b ∈ busy, overlaps b w → w.start ≤ b.start) :
    ∀ g ∈ findGapsInWindow busy w d, ∀ b ∈ busy, ¬ overlaps g b := by
  intro g hg b hb
  unfold findGapsInWindow at hg
  simp only [List.mem_filter] at hg
  obtain ⟨hg, -⟩ := hg
  set filtered := busy.filter
      (fun b => decide (b.start < w.stop) && decide (w.start < b.stop)) with hfiltered
  set S := sortByStart filtered with hS
  have hSperm : List.Perm S filtered := sortByStart_perm filtered
  have hmemS : ∀ x ∈ S, x ∈ busy ∧ x.start < w.stop ∧ w.start < x.stop := by
    intro x hx
    have hx' := hSperm.mem_iff.mp hx
    rw [hfiltered, List.mem_filter] at hx'
    obtain ⟨hx1, hx2⟩ := hx'
    simp only [Bool.and_eq_true, decide_eq_true_eq] at hx2
    exact ⟨hx1, hx2⟩
  have hSsorted : S.Pairwise (fun a b => a.start ≤ b.start) := sortByStart_pairwise filtered
  have hSdisj : S.Pairwise (fun a b => ¬ overlaps a b) := by
    have hsub : filtered.Pairwise (fun a b => ¬ overlaps a b) :=
      List.Pairwise.sublist (List.filter_sublist busy) hdisj
    exact (hSperm.pairwise_iff fun {a b} h hov => h (overlaps_symm hov)).mpr hsub
  have hSRts : S.Pairwise Rts := by
    refine List.Pairwise.imp_of_mem ?_ (hSsorted.and hSdisj)
    intro a c hma hmc ⟨hle, hnov⟩
    refine ⟨hle, ?_⟩
    have hcne : c.start < c.stop := hne c (hmemS c hmc).1
    by_contra hlt
    exact hnov ⟨by omega, by omega⟩
  -- the sorted event list is exactly  sentinelStart :: S ++ [sentinelEnd]
  set s1 : TimeInterval := ⟨w.start, w.start⟩ with hs1
  set s2 : TimeInterval := ⟨w.stop, w.stop⟩ with hs2
  have hSlow : ∀ x ∈ S, w.start ≤ x.start := by
    intro x hx
    obtain ⟨hxb, hx1, hx2⟩ := hmemS x hx
    exact hwin x hxb ⟨hx1, hx2⟩
  have hevents : sortByStart ([s1, s2] ++ S) = (s1 :: S) ++ [s2] := by
    have h0 : sortByStart ([s1, s2] ++ S)
        = insertByStart s1 (insertByStart s2 (sortByStart S)) := rfl
    rw [h0, hS, sortByStart_of_sorted _ (sortByStart_pairwise filtered)]
    rw [insertByStart_back s2 _ (fun y hy => (hmemS y hy).2.1)]
    rw [insertByStart_front s1 _ ?_]
    · rfl
    · intro y hy
      rcases List.mem_append.mp hy with hy | hy
      · exact hSlow y hy
      · simp only [List.mem_singleton] at hy
        subst hy
        exact hwne
  have hfront : (s1 :: S).Pairwise Rts := by
    refine List.pairwise_cons.mpr ⟨?_, hSRts⟩
    intro x hx
    exact ⟨hSlow x hx, le_of_lt (hmemS x hx).2.2⟩
  -- bounds satisfied by every event
  have hlowStop : ∀ ev ∈ s1 :: S, w.start ≤ ev.stop := by
    intro ev hev
    rcases List.mem_cons.mp hev with rfl | hev
    · exact le_refl _
    · exact le_of_lt (hmemS ev hev).2.2
  have hhighStart : ∀ ev ∈ s1 :: S, ev.start ≤ w.stop := by
    intro ev hev
    rcases List.mem_cons.mp hev with rfl | hev
    · exact hwne
    · exact le_of_lt (hmemS ev hev).2.1
  -- a gap contained in the window cannot meet a busy interval that misses it
  have houtside : ∀ gap : TimeInterval, w.start ≤ gap.start → gap.stop ≤ w.stop →
      ¬ overlaps b w → ¬ overlaps gap b := by
    intro gap h1 h2 hmiss hov
    exact hmiss ⟨by have := hov.2; omega, by have := hov.1; omega⟩
  -- membership of b in the window splits on the filter
  have hbcases : b ∈ S ∨ ¬ overlaps b w := by
    by_cases hovw : overlaps b w
    · left
      refine hSperm.mem_iff.mpr ?_
      rw [hfiltered, List.mem_filter]
      refine ⟨hb, ?_⟩
      simp only [Bool.and_eq_true, decide_eq_true_eq]
      exact hovw
    · right; exact hovw
  rw [hevents] at hg
  have hnil : s1 :: S ≠ [] := by simp
  set z := (s1 :: S).getLast hnil with hz
  have hzlast : (s1 :: S).getLast? = some z := List.getLast?_eq_getLast _ hnil
  rw [walkGaps_append_of_getLast (s1 :: S) s2 z hzlast] at hg
  rcases List.mem_append.mp hg with hg | hg
  · -- a gap of the walk over  s1 :: S
    obtain ⟨hdis, ⟨ev₀, hev₀, hgstart⟩, ⟨ev₁, hev₁, hgstop⟩⟩ :=
      walkGaps_spec (s1 :: S) hfront g hg
    rcases hbcases with hbS | hbmiss
    · exact hdis b (List.mem_cons_of_mem s1 hbS)
    · refine houtside g ?_ ?_ hbmiss
      · rw [hgstart]; exact hlowStop ev₀ hev₀
      · rw [hgstop]; exact hhighStart ev₁ hev₁
  · -- the gap between the last event and the end sentinel
    by_cases hcut : z.stop < s2.start
    · rw [if_pos hcut] at hg
      simp only [List.mem_singleton] at hg
      subst hg
      have hzmem : z ∈ s1 :: S := List.getLast_mem hnil
      rcases hbcases with hbS | hbmiss
      · -- b precedes (or is) the last event, so b.stop ≤ z.stop = gap.start
        have hsplit : (s1 :: S).dropLast ++ [z] = s1 :: S :=
          List.dropLast_append_getLast hnil
        have hpw : ((s1 :: S).dropLast ++ [z]).Pairwise Rts := by
          rw [hsplit]; exact hfront
        have hlastRts : ∀ a ∈ (s1 :: S).dropLast, Rts a z := by
          have hpa := (List.pairwise_append.mp hpw).2.2
          intro a ha
          exact hpa a ha z (List.mem_singleton_self z)
        have hbmem : b ∈ (s1 :: S).dropLast ∨ b = z := by
          have hmem : b ∈ (s1 :: S).dropLast ++ [z] := by
            rw [hsplit]; exact List.mem_cons_of_mem s1 hbS
          rcases List.mem_append.mp hmem with h | h
          · exact Or.inl h
          · exact Or.inr (List.mem_singleton.mp h)
        intro hov
        have hlt : z.stop < b.stop := hov.1
        rcases hbmem with hbdrop | rfl
        · have := (hlastRts b hbdrop).2
          omega
        · omega
      · exact houtside _ (hlowStop z (List.getLast_mem hnil)) (le_refl _) hbmiss
    · rw [if_neg hcut] at hg
      simp at hg

/-- Membership in an appended fold over windows. -/
theorem mem_foldr_append {α β : Type} (f : β → List α) (ws : List β) (x : α) :
    (x ∈ ws.foldr (fun w acc => f w ++ acc) []) ↔ ∃ w ∈ ws, x ∈ f w := by
  induction ws with
  | nil => simp
  | cons w ws ih => simp [ih]

theorem tableBusy_eq (bookings : List Booking) (tableId : String) :
    tableBusy bookings tableId
      = sortByStart ((confirmedFor bookings tableId).map Booking.interval) := rfl

/-- C1 (amended): soundness of gap discovery for one table.  Provided the
confirmed busy intervals of the table are non-empty and pairwise
non-overlapping, and none of them starts before the start of a service window
it intersects, every gap returned by `findGapsForTable` is disjoint from every
confirmed busy interval of that table. -/
theorem findGapsForTable_no_overlap
    (bookings : List Booking) (tableId : String) (d : Int)
    (windows : List TimeInterval)
    (hwne : ∀ w ∈ windows, w.start ≤ w.stop)
    (hne : ∀ b ∈ confirmedFor bookings tableId, b.start < b.stop)
    (hdisj : (confirmedFor bookings tableId).Pairwise
      (fun a b => ¬ overlaps a.interval b.interval))
    (hwin : ∀ b ∈ confirmedFor bookings tableId, ∀ w ∈ windows,
      overlaps b.interval w → w.start ≤ b.start) :
    ∀ g ∈ findGapsForTable bookings tableId d windows,
      ∀ b ∈ bookings, b.tableIds.contains tableId → b.status = BookingStatus.confirmed →
        ¬ overlaps g b.interval := by
  intro g hg b hb hbt hbs
  have hbmem : b ∈ confirmedFor bookings tableId := by
    rw [confirmedFor, List.mem_filter]
    refine ⟨hb, ?_⟩
    rw [Bool.and_eq_true]
    exact ⟨hbt, by simp [hbs]⟩
  -- locate the window whose walk produced g
  unfold findGapsForTable at hg
  have hg' := (sortByStart_perm _).mem_iff.mp hg
  rw [mem_foldr_append] at hg'
  obtain ⟨w, hw, hgw⟩ := hg'
  -- transfer the hypotheses to the sorted interval list used by the walk
  have hperm : List.Perm (tableBusy bookings tableId)
      ((confirmedFor bookings tableId).map Booking.interval) := by
    rw [tableBusy_eq]; exact sortByStart_perm _
  have hmem' : ∀ x ∈ tableBusy bookings tableId,
      ∃ b₀ ∈ confirmedFor bookings tableId, x = b₀.interval := by
    intro x hx
    have hx' := hperm.mem_iff.mp hx
    rcases List.mem_map.mp hx' with ⟨b₀, hb₀, rfl⟩
    exact ⟨b₀, hb₀, rfl⟩
  have hne' : ∀ x ∈ tableBusy bookings tableId, x.start < x.stop := by
    intro x hx
    obtain ⟨b₀, hb₀, rfl⟩ := hmem' x hx
    exact hne b₀ hb₀
  have hdisj' : (tableBusy bookings tableId).Pairwise (fun a b => ¬ overlaps a b) := by
    refine (hperm.pairwise_iff fun {a c} h hov => h (overlaps_symm hov)).mpr ?_
    exact (List.pairwise_map).mpr hdisj
  have hwin' : ∀ x ∈ tableBusy bookings tableId, overlaps x w → w.start ≤ x.start := by
    intro x hx hov
    obtain ⟨b₀, hb₀, rfl⟩ := hmem' x hx
    exact hwin b₀ hb₀ w hw hov
  have hmain := findGapsInWindow_disjoint (tableBusy bookings tableId) w d
    (hwne w hw) hne' hdisj' hwin' g hgw
  -- b.interval is one of the busy intervals handed to the walk
  have hbint : b.interval ∈ tableBusy bookings tableId :=
    hperm.mem_iff.mpr (List.mem_map.mpr ⟨b, hbmem, rfl⟩)
  exact hmain b.interval hbint

/-- C1 (amended): for every resource, service-window list and duration, if the
confirmed busy intervals of the resource are non-empty, pairwise
non-overlapping, and none of them starts before the start of a window it
intersects, then every gap returned by `findGapsForTable` is disjoint from
every confirmed busy interval of that resource.  (As originally stated — for
arbitrary busy sets, "including when busy intervals overlap or nest" — the
claim is false; see the counterexample.) -/
theorem C1_gap_discovery_no_overlap
    (bookings : List Booking) (tableId : String) (d : Int)
    (windows : List TimeInterval)
    (hwne : ∀ w ∈ windows, w.start ≤ w.stop)
    (hne : ∀ b ∈ confirmedFor bookings tableId, b.start < b.stop)
    (hdisj : (confirmedFor bookings tableId).Pairwise
      (fun a b => ¬ overlaps a.interval b.interval))
    (hwin : ∀ b ∈ confirmedFor bookings tableId, ∀ w ∈ windows,
      overlaps b.interval w → w.start ≤ b.start) :
    ∀ g ∈ findGapsForTable bookings tableId d windows,
      ∀ b ∈ bookings, b.tableIds.contains tableId → b.status = BookingStatus.confirmed →
        ¬ overlaps g b.interval :=
  findGapsForTable_no_overlap bookings tableId d windows hwne hne hdisj hwin

/-- C1 counterexample: with the nested confirmed busy intervals
`[600000, 3000000)` and `[1200000, 1800000)` (minutes 10–50 and 20–30) on
table `"T1"` and the window `[0, 6000000)` (minutes 0–100), gap discovery
returns the gap `[1800000, 6000000)` (minutes 30–100), which intersects the
busy interval `[600000, 3000000)`: a returned gap is *not* disjoint from
every confirmed busy interval when busy intervals nest. -/
theorem C1_counterexample :
    TimeInterval.mk 1800000 6000000 ∈
      findGapsForTable
        [Booking.mk ["T1"] 600000 3000000 BookingStatus.confirmed,
         Booking.mk ["T1"] 1200000 1800000 BookingStatus.confirmed]
        "T1" 15 [TimeInterval.mk 0 6000000]
    ∧ overlaps (TimeInterval.mk 1800000 6000000)
        (Booking.mk ["T1"] 600000 3000000 BookingStatus.confirmed).interval := by
  constructor
  · decide
  · decide

/-- C1 witness: the amended theorem applied to one confirmed booking
`[600000, 3000000)` on `"T1"` inside the window `[0, 6000000)`. -/
theorem C1_witness :
    ¬ overlaps (TimeInterval.mk 3000000 6000000)
      (Booking.mk ["T1"] 600000 3000000 BookingStatus.confirmed).interval :=
  C1_gap_discovery_no_overlap
    [Booking.mk ["T1"] 600000 3000000 BookingStatus.confirmed] "T1" 15
    [TimeInterval.mk 0 6000000]
    (by decide) (by decide) (by decide) (by decide)
    (TimeInterval.mk 3000000 6000000) (by decide)
    (Booking.mk ["T1"] 600000 3000000 BookingStatus.confirmed) (by decide)
    (by decide) (by decide)

theorem insertLe_perm {α : Type} (le : α → α → Bool) (x : α) (l : List α) :
    List.Perm (insertLe le x l) (x :: l) := by
  induction l with
  | nil => simp [insertLe]
  | cons y ys ih =>
    simp only [insertLe]
    split
    · exact List.Perm.refl _
    · exact ((ih.cons y).trans (List.Perm.swap x y ys))

theorem sortLe_perm {α : Type} (le : α → α → Bool) (l : List α) :
    List.Perm (sortLe le l) l := by
  induction l with
  | nil => simp [sortLe]
  | cons a as ih =>
    have h : sortLe le (a :: as) = insertLe le a (sortLe le as) := rfl
    rw [h]
    exact (insertLe_perm le a (sortLe le as)).trans (ih.cons a)

theorem insertLe_pairwise {α : Type} (le : α → α → Bool)
    (htrans : ∀ a b c, le a b = true → le b c = true → le a c = true)
    (htot : ∀ a b, le a b = true ∨ le b a = true) (x : α) (l : List α)
    (h : l.Pairwise (fun a b => le a b = true)) :
    (insertLe le x l).Pairwise (fun a b => le a b = true) := by
  induction l with
  | nil => simp [insertLe]
  | cons y ys ih =>
    simp only [insertLe]
    rcases List.pairwise_cons.mp h with ⟨hy, hys⟩
    split
    · refine List.pairwise_cons.mpr ⟨?_, h⟩
      intro b hb
      rcases List.mem_cons.mp hb with rfl | hb
      · assumption
      · exact htrans x y b (by assumption) (hy b hb)
    · refine List.pairwise_cons.mpr ⟨?_, ih hys⟩
      intro b hb
      have hb' := (insertLe_perm le x ys).mem_iff.mp hb
      rcases List.mem_cons.mp hb' with rfl | hb'
      · rcases htot y b with hyb | hby
        · exact hyb
        · exact absurd hby (by assumption)
      · exact hy b hb'

theorem sortLe_pairwise {α : Type} (le : α → α → Bool)
    (htrans : ∀ a b c, le a b = true → le b c = true → le a c = true)
    (htot : ∀ a b, le a b = true ∨ le b a = true) (l : List α) :
    (sortLe le l).Pairwise (fun a b => le a b = true) := by
  induction l with
  | nil => simp [sortLe]
  | cons a as ih => exact insertLe_pairwise le htrans htot a (sortLe le as) ih

theorem sortLe_head_min {α : Type} (le : α → α → Bool)
    (htrans : ∀ a b c, le a b = true → le b c = true → le a c = true)
    (htot : ∀ a b, le a b = true ∨ le b a = true) (l : List α) (c : α)
    (h : (sortLe le l).head? = some c) :
    c ∈ l ∧ ∀ y ∈ l, le c y = true := by
  have hperm := sortLe_perm le l
  have hpw := sortLe_pairwise le htrans htot l
  cases hsort : sortLe le l with
  | nil => rw [hsort] at h; simp at h
  | cons a rest =>
    rw [hsort] at h
    simp only [List.head?_cons, Option.some.injEq] at h
    subst h
    rw [hsort] at hperm hpw
    refine ⟨hperm.mem_iff.mp (List.mem_cons_self _ _), ?_⟩
    intro y hy
    rcases List.mem_cons.mp (hperm.mem_iff.mpr hy) with rfl | hyrest
    · rcases htot y y with hc | hc <;> exact hc
    · exact (List.pairwise_cons.mp hpw).1 y hyrest

theorem candStartLe_trans (a b c : ComboCandidate)
    (h1 : candStartLe a b = true) (h2 : candStartLe b c = true) :
    candStartLe a c = true := by
  simp only [candStartLe, decide_eq_true_eq] at *
  omega

theorem candStartLe_total (a b : ComboCandidate) :
    candStartLe a b = true ∨ candStartLe b a = true := by
  simp only [candStartLe, decide_eq_true_eq]
  omega

theorem candComboLe_trans (a b c : ComboCandidate)
    (h1 : candComboLe a b = true) (h2 : candComboLe b c = true) :
    candComboLe a c = true := by
  simp only [candComboLe] at *
  split at h1 <;> split at h2 <;> split <;>
    simp_all only [decide_eq_true_eq] <;> omega

theorem candComboLe_total (a b : ComboCandidate) :
    candComboLe a b = true ∨ candComboLe b a = true := by
  simp only [candComboLe]
  split <;> split <;> simp only [decide_eq_true_eq] <;> omega

/-- C4 (amended): whenever the selector returns a candidate, it is an element
of the input; it is a single whenever any single exists, with the earliest
start among the singles; with no single it is a combo with the
lexicographically least (table count, start) among the combos.  Ties between
distinct candidates are resolved by input position (the stable sort), *not*
by resource id, so the result is a function of the input sequence but is not
invariant under permutations of it (see the counterexample). -/
theorem C4_selector_minimal (candidates : List ComboCandidate)
    (c : ComboCandidate) (h : selectBestCandidate candidates = some c) :
    c ∈ candidates ∧
    ((c.kind = CandidateKind.single ∧
        ∀ s ∈ candidates, s.kind = CandidateKind.single →
          c.interval.start ≤ s.interval.start)
     ∨ (c.kind = CandidateKind.combo ∧
        (∀ s ∈ candidates, s.kind = CandidateKind.combo) ∧
        ∀ s ∈ candidates, c.tableIds.length < s.tableIds.length ∨
          (c.tableIds.length = s.tableIds.length ∧
            c.interval.start ≤ s.interval.start))) := by
  by_cases h0 : candidates.length = 0
  · rw [selectBestCandidate, if_pos h0] at h
    cases h
  · by_cases h1 :
        0 < (candidates.filter fun c => c.kind == CandidateKind.single).length
    · rw [selectBestCandidate, if_neg h0, if_pos h1] at h
      obtain ⟨hcmem, hmin⟩ :=
        sortLe_head_min candStartLe candStartLe_trans candStartLe_total _ c h
      rw [List.mem_filter] at hcmem
      obtain ⟨hcmem, hckind⟩ := hcmem
      refine ⟨hcmem, Or.inl ⟨by simpa using hckind, ?_⟩⟩
      intro s hs hskind
      have hsin : s ∈ candidates.filter fun c => c.kind == CandidateKind.single :=
        List.mem_filter.mpr ⟨hs, by simp [hskind]⟩
      have := hmin s hsin
      simpa [candStartLe] using this
    · by_cases h2 :
          0 < (candidates.filter fun c => c.kind == CandidateKind.combo).length
      · rw [selectBestCandidate, if_neg h0, if_neg h1, if_pos h2] at h
        obtain ⟨hcmem, hmin⟩ :=
          sortLe_head_min candComboLe candComboLe_trans candComboLe_total _ c h
        rw [List.mem_filter] at hcmem
        obtain ⟨hcmem, hckind⟩ := hcmem
        have hall : ∀ s ∈ candidates, s.kind = CandidateKind.combo := by
          intro s hs
          cases hk : s.kind with
          | combo => rfl
          | single =>
            exfalso
            apply h1
            have : s ∈ candidates.filter fun c => c.kind == CandidateKind.single :=
              List.mem_filter.mpr ⟨hs, by simp [hk]⟩
            exact List.length_pos.mpr (List.ne_nil_of_mem this)
        refine ⟨hcmem, Or.inr ⟨by simpa using hckind, hall, ?_⟩⟩
        intro s hs
        have hsin : s ∈ candidates.filter fun c => c.kind == CandidateKind.combo :=
          List.mem_filter.mpr ⟨hs, by simp [hall s hs]⟩
        have hle := hmin s hsin
        simp only [candComboLe] at hle
        split at hle <;> simp only [decide_eq_true_eq] at hle <;> omega
      · rw [selectBestCandidate, if_neg h0, if_neg h1, if_neg h2] at h
        cases h

/-- C4 counterexample: two single candidates with the same start on tables
`"B"` and `"A"`.  The selector keeps the first-listed of them (the singles
sort has no resource-id tie-break), so permuting the input changes the chosen
candidate: the selection is not order-independent, and the tie is not broken
towards the lexicographically smaller id. -/
theorem C4_counterexample :
    selectBestCandidate
        [ComboCandidate.mk ["B"] 2 4 (TimeInterval.mk 0 3600000) CandidateKind.single,
         ComboCandidate.mk ["A"] 2 4 (TimeInterval.mk 0 3600000) CandidateKind.single]
      ≠ selectBestCandidate
        [ComboCandidate.mk ["A"] 2 4 (TimeInterval.mk 0 3600000) CandidateKind.single,
         ComboCandidate.mk ["B"] 2 4 (TimeInterval.mk 0 3600000) CandidateKind.single] := by
  decide

/-- C4 witness: the amended selector theorem applied to a two-candidate list
(one single, one combo): the single is chosen. -/
theorem C4_witness :
    (ComboCandidate.mk ["A"] 2 4 (TimeInterval.mk 900000 3600000)
        CandidateKind.single) ∈
      [ComboCandidate.mk ["A"] 2 4 (TimeInterval.mk 900000 3600000)
        CandidateKind.single,
       ComboCandidate.mk ["B", "C"] 2 6 (TimeInterval.mk 0 3600000)
        CandidateKind.combo] ∧
    (((ComboCandidate.mk ["A"] 2 4 (TimeInterval.mk 900000 3600000)
          CandidateKind.single).kind = CandidateKind.single ∧
        ∀ s ∈ [ComboCandidate.mk ["A"] 2 4 (TimeInterval.mk 900000 3600000)
                CandidateKind.single,
               ComboCandidate.mk ["B", "C"] 2 6 (TimeInterval.mk 0 3600000)
                CandidateKind.combo],
          s.kind = CandidateKind.single →
            (ComboCandidate.mk ["A"] 2 4 (TimeInterval.mk 900000 3600000)
              CandidateKind.single).interval.start ≤ s.interval.start)
     ∨ ((ComboCandidate.mk ["A"] 2 4 (TimeInterval.mk 900000 3600000)
          CandidateKind.single).kind = CandidateKind.combo ∧
        (∀ s ∈ [ComboCandidate.mk ["A"] 2 4 (TimeInterval.mk 900000 3600000)
                 CandidateKind.single,
                ComboCandidate.mk ["B", "C"] 2 6 (TimeInterval.mk 0 3600000)
                 CandidateKind.combo],
          s.kind = CandidateKind.combo) ∧
        ∀ s ∈ [ComboCandidate.mk ["A"] 2 4 (TimeInterval.mk 900000 3600000)
                CandidateKind.single,
               ComboCandidate.mk ["B", "C"] 2 6 (TimeInterval.mk 0 3600000)
                CandidateKind.combo],
          (ComboCandidate.mk ["A"] 2 4 (TimeInterval.mk 900000 3600000)
            CandidateKind.single).tableIds.length < s.tableIds.length ∨
            ((ComboCandidate.mk ["A"] 2 4 (TimeInterval.mk 900000 3600000)
                CandidateKind.single).tableIds.length = s.tableIds.length ∧
              (ComboCandidate.mk ["A"] 2 4 (TimeInterval.mk 900000 3600000)
                CandidateKind.single).interval.start ≤ s.interval.start))) :=
  C4_selector_minimal
    [ComboCandidate.mk ["A"] 2 4 (TimeInterval.mk 900000 3600000)
      CandidateKind.single,
     ComboCandidate.mk ["B", "C"] 2 6 (TimeInterval.mk 0 3600000)
      CandidateKind.combo]
    (ComboCandidate.mk ["A"] 2 4 (TimeInterval.mk 900000 3600000)
      CandidateKind.single)
    (by decide)

theorem foldl_add_min (l : List Table) (init : Int) :
    l.foldl (fun s t => s + t.minSize) init = init + (l.map Table.minSize).sum := by
  induction l generalizing init with
  | nil => simp
  | cons t ts ih => simp [ih, add_assoc]

theorem foldl_add_max (l : List Table) (init : Int) :
    l.foldl (fun s t => s + t.maxSize) init = init + (l.map Table.maxSize).sum := by
  induction l generalizing init with
  | nil => simp
  | cons t ts ih => simp [ih, add_assoc]

theorem calc_min_eq (l : List Table) :
    (calculateCapacity l).1 = (l.map Table.minSize).sum := by
  simp [calculateCapacity, foldl_add_min]

theorem calc_max_eq (l : List Table) :
    (calculateCapacity l).2 = (l.map Table.maxSize).sum := by
  simp [calculateCapacity, foldl_add_max]

theorem sumMaxSize_eq (l : List Table) :
    sumMaxSize l = (l.map Table.maxSize).sum := by
  simp [sumMaxSize, foldl_add_max]

theorem sumMaxSize_sublist_le {l₁ l₂ : List Table} (h : l₁.Sublist l₂)
    (hpos : ∀ t ∈ l₂, 0 < t.maxSize) : sumMaxSize l₁ ≤ sumMaxSize l₂ := by
  rw [sumMaxSize_eq, sumMaxSize_eq]
  refine List.Sublist.sum_le_sum (h.map Table.maxSize) ?_
  intro a ha
  rcases List.mem_map.mp ha with ⟨t, ht, rfl⟩
  exact le_of_lt (hpos t ht)

theorem calc_min_append_one (l : List Table) (t : Table) :
    (calculateCapacity (l ++ [t])).1 = (calculateCapacity l).1 + t.minSize := by
  simp [calc_min_eq]

theorem calc_max_append_one (l : List Table) (t : Table) :
    (calculateCapacity (l ++ [t])).2 = (calculateCapacity l).2 + t.maxSize := by
  simp [calc_max_eq]

theorem goCombos_sound (p : Int) (rest : List Table) :
    ∀ (current : List Table) (m M : Int),
      m = (calculateCapacity current).1 → M = (calculateCapacity current).2 →
      current.length ≤ 5 →
      ∀ c ∈ goCombos p rest current m M,
        ∃ ext, ext ≠ [] ∧ ext.Sublist rest ∧ c = current ++ ext ∧
          2 ≤ c.length ∧ c.length ≤ 6 ∧
          (calculateCapacity c).1 ≤ p ∧ p ≤ (calculateCapacity c).2 := by
  induction rest with
  | nil =>
    intro current m M hm hM hcur c hc
    simp [goCombos] at hc
  | cons t ts ih =>
    intro current m M hm hM hcur c hc
    simp only [goCombos, List.mem_append] at hc
    rcases hc with hc | hc
    · -- the branch that takes t
      by_cases hprune : M + t.maxSize + sumMaxSize ts < p
      · rw [if_pos hprune] at hc
        simp at hc
      · rw [if_neg hprune] at hc
        rcases List.mem_append.mp hc with hc | hc
        · -- recorded: c = current ++ [t]
          by_cases hcond : 2 ≤ (current ++ [t]).length ∧ m + t.minSize ≤ p ∧
              p ≤ M + t.maxSize
          · rw [if_pos hcond] at hc
            simp only [List.mem_singleton] at hc
            subst hc
            refine ⟨[t], by simp, List.Sublist.cons₂ t (List.nil_sublist ts), rfl,
              hcond.1, by simp; omega, ?_, ?_⟩
            · rw [calc_min_append_one, ← hm]; exact hcond.2.1
            · rw [calc_max_append_one, ← hM]; exact hcond.2.2
          · rw [if_neg hcond] at hc
            simp at hc
        · -- from the recursive call that took t
          by_cases hsix : (current ++ [t]).length = 6
          · rw [if_pos hsix] at hc
            simp at hc
          · rw [if_neg hsix] at hc
            have hm' : m + t.minSize = (calculateCapacity (current ++ [t])).1 := by
              rw [calc_min_append_one, hm]
            have hM' : M + t.maxSize = (calculateCapacity (current ++ [t])).2 := by
              rw [calc_max_append_one, hM]
            have hcur' : (current ++ [t]).length ≤ 5 := by
              simp only [List.length_append, List.length_singleton] at hsix ⊢
              omega
            obtain ⟨ext', hne, hsub, hceq, h2, h6, hmin, hmax⟩ :=
              ih (current ++ [t]) (m + t.minSize) (M + t.maxSize) hm' hM' hcur' c hc
            refine ⟨t :: ext', by simp, List.Sublist.cons₂ t hsub, ?_, h2, h6, hmin, hmax⟩
            rw [hceq, List.append_assoc]
            rfl
    · -- the branch that skips t
      obtain ⟨ext, hne, hsub, hceq, h2, h6, hmin, hmax⟩ :=
        ih current m M hm hM hcur c hc
      exact ⟨ext, hne, hsub.cons t, hceq, h2, h6, hmin, hmax⟩

theorem goCombos_complete (p : Int) (rest : List Table) :
    ∀ (current : List Table) (m M : Int),
      m = (calculateCapacity current).1 → M = (calculateCapacity current).2 →
      current.length ≤ 5 →
      (∀ t ∈ rest, 0 < t.maxSize) →
      ∀ ext, ext ≠ [] → ext.Sublist rest →
        2 ≤ (current ++ ext).length → (current ++ ext).length ≤ 6 →
        (calculateCapacity (current ++ ext)).1 ≤ p →
        p ≤ (calculateCapacity (current ++ ext)).2 →
        current ++ ext ∈ goCombos p rest current m M := by
  induction rest with
  | nil =>
    intro current m M hm hM hcur hpos ext hne hsub
    rw [List.sublist_nil] at hsub
    exact absurd hsub hne
  | cons t ts ih =>
    intro current m M hm hM hcur hpos ext hne hsub h2 h6 hmin hmax
    simp only [goCombos, List.mem_append]
    cases hsub with
    | cons _ hsub' =>
      -- ext avoids t entirely
      right
      exact ih current m M hm hM hcur (fun u hu => hpos u (List.mem_cons_of_mem t hu))
        ext hne hsub' h2 h6 hmin hmax
    | cons₂ _ hsub' =>
      -- ext = t :: ext'
      rename_i ext'
      left
      have hpruneFalse : ¬ (M + t.maxSize + sumMaxSize ts < p) := by
        have hsp : (calculateCapacity (current ++ t :: ext')).2
            = M + t.maxSize + sumMaxSize ext' := by
          rw [hM, calc_max_eq, calc_max_eq, sumMaxSize_eq]
          simp [add_assoc]
        have hle : sumMaxSize ext' ≤ sumMaxSize ts :=
          sumMaxSize_sublist_le hsub' (fun u hu => hpos u (List.mem_cons_of_mem t hu))
        rw [hsp] at hmax
        omega
      rw [if_neg hpruneFalse]
      rw [List.mem_append]
      cases ext' with
      | nil =>
        left
        have hcond : 2 ≤ (current ++ [t]).length ∧ m + t.minSize ≤ p ∧
            p ≤ M + t.maxSize := by
          refine ⟨h2, ?_, ?_⟩
          · rw [hm, ← calc_min_append_one]; exact hmin
          · rw [hM, ← calc_max_append_one]; exact hmax
        rw [if_pos hcond]
        simp
      | cons u ext'' =>
        right
        have hsplit : current ++ [t] ++ u :: ext'' = current ++ t :: u :: ext'' := by
          simp
        have hsix : ¬ ((current ++ [t]).length = 6) := by
          have h6' := h6
          simp only [List.length_append, List.length_cons, List.length_nil] at h6' ⊢
          omega
        rw [if_neg hsix]
        have hm' : m + t.minSize = (calculateCapacity (current ++ [t])).1 := by
          rw [calc_min_append_one, hm]
        have hM' : M + t.maxSize = (calculateCapacity (current ++ [t])).2 := by
          rw [calc_max_append_one, hM]
        have hcur' : (current ++ [t]).length ≤ 5 := by
          have h6' := h6
          simp only [List.length_append, List.length_cons, List.length_nil] at h6' ⊢
          omega
        have hresult := ih (current ++ [t]) (m + t.minSize) (M + t.maxSize) hm' hM'
          hcur' (fun v hv => hpos v (List.mem_cons_of_mem t hv))
          (u :: ext'') (by simp) hsub'
          (by rw [hsplit]; exact h2)
          (by rw [hsplit]; exact h6)
          (by rw [hsplit]; exact hmin)
          (by rw [hsplit]; exact hmax)
        rw [hsplit] at hresult
        exact hresult

/-- C5 (amended): the combo generator is exact over the tables with positive
`maxSize`: every generated combination has 2–6 members, additive capacity
bounds admitting the party size, and no duplicate table id (when the input
ids are distinct); and every subsequence of the sorted positive-capacity
table list satisfying those size and capacity bounds is generated.  (As
originally stated over *all* tables the claim is false: tables with
`maxSize = 0` are discarded before the search, so a qualifying subset
containing such a table is never produced — see the counterexample.) -/
theorem C5_combo_generator_exact (tables : List Table) (p : Int)
    (hnodup : (tables.map Table.id).Nodup) :
    (∀ c ∈ generateTableCombinations tables p,
       2 ≤ c.length ∧ c.length ≤ 6 ∧
       (calculateCapacity c).1 ≤ p ∧ p ≤ (calculateCapacity c).2 ∧
       (c.map Table.id).Nodup ∧
       c.Sublist (sortLe tableMaxDescLe (tables.filter fun t => 0 < t.maxSize)))
    ∧ (∀ c, c.Sublist (sortLe tableMaxDescLe (tables.filter fun t => 0 < t.maxSize)) →
        2 ≤ c.length → c.length ≤ 6 →
        (calculateCapacity c).1 ≤ p → p ≤ (calculateCapacity c).2 →
        c ∈ generateTableCombinations tables p) := by
  have hsortperm := sortLe_perm tableMaxDescLe (tables.filter fun t => 0 < t.maxSize)
  constructor
  · intro c hc
    rw [generateTableCombinations] at hc
    by_cases hlt : (tables.filter fun t => 0 < t.maxSize).length < 2
    · rw [if_pos hlt] at hc
      simp at hc
    · rw [if_neg hlt] at hc
      obtain ⟨ext, hne, hsub, hceq, h2, h6, hmin, hmax⟩ :=
        goCombos_sound p _ [] 0 0 rfl rfl (by simp) c hc
      rw [List.nil_append] at hceq
      subst hceq
      refine ⟨h2, h6, hmin, hmax, ?_, hsub⟩
      have hnodupUseful : ((tables.filter fun t => 0 < t.maxSize).map Table.id).Nodup :=
        List.Nodup.sublist ((List.filter_sublist tables).map Table.id) hnodup
      have hnodupSorted :
          ((sortLe tableMaxDescLe (tables.filter fun t => 0 < t.maxSize)).map
            Table.id).Nodup :=
        ((hsortperm.map Table.id).nodup_iff).mpr hnodupUseful
      exact List.Nodup.sublist (hsub.map Table.id) hnodupSorted
  · intro c hsub h2 h6 hmin hmax
    rw [generateTableCombinations]
    by_cases hlt : (tables.filter fun t => 0 < t.maxSize).length < 2
    · exfalso
      have hlen := hsub.length_le
      rw [hsortperm.length_eq] at hlen
      omega
    · rw [if_neg hlt]
      have hpos : ∀ t ∈ sortLe tableMaxDescLe (tables.filter fun u => 0 < u.maxSize),
          0 < t.maxSize := by
        intro t ht
        have := hsortperm.mem_iff.mp ht
        rw [List.mem_filter] at this
        simpa using this.2
      have hne : c ≠ [] := by
        intro hnil
        subst hnil
        simp at h2
      have := goCombos_complete p _ [] 0 0 rfl rfl (by simp) hpos c hne hsub
        (by simpa using h2) (by simpa using h6) (by simpa using hmin)
        (by simpa using hmax)
      simpa using this

/-- C5 counterexample: tables `A(1,1)`, `B(1,1)`, `Z(0,0)` and party size 2.
The three-table subset `[A, B, Z]` has distinct members, size 3 ∈ [2,6],
summed minimum capacity 2 ≤ 2 and summed maximum capacity 2 ≥ 2, yet the
generator produces only `[[A, B]]`: the qualifying subset containing the
zero-capacity table is never generated, refuting "every subset of size 2..6
satisfying the bounds is generated". -/
theorem C5_counterexample :
    ((calculateCapacity
        [Table.mk "A" 1 1, Table.mk "B" 1 1, Table.mk "Z" 0 0]).1 ≤ 2
      ∧ 2 ≤ (calculateCapacity
        [Table.mk "A" 1 1, Table.mk "B" 1 1, Table.mk "Z" 0 0]).2
      ∧ ([Table.mk "A" 1 1, Table.mk "B" 1 1, Table.mk "Z" 0 0].map Table.id).Nodup)
    ∧ generateTableCombinations
        [Table.mk "A" 1 1, Table.mk "B" 1 1, Table.mk "Z" 0 0] 2
      = [[Table.mk "A" 1 1, Table.mk "B" 1 1]]
    ∧ [Table.mk "A" 1 1, Table.mk "B" 1 1, Table.mk "Z" 0 0]
        ∉ generateTableCombinations
            [Table.mk "A" 1 1, Table.mk "B" 1 1, Table.mk "Z" 0 0] 2 := by
  refine ⟨⟨by decide, by decide, by decide⟩, by decide, by decide⟩

/-- C5 witness: the exactness theorem applied to two tables `A(1,2)`,
`B(1,2)` and party size 3. -/
theorem C5_witness :
    (∀ c ∈ generateTableCombinations [Table.mk "A" 1 2, Table.mk "B" 1 2] 3,
       2 ≤ c.length ∧ c.length ≤ 6 ∧
       (calculateCapacity c).1 ≤ 3 ∧ 3 ≤ (calculateCapacity c).2 ∧
       (c.map Table.id).Nodup ∧
       c.Sublist (sortLe tableMaxDescLe
         ([Table.mk "A" 1 2, Table.mk "B" 1 2].filter fun t => 0 < t.maxSize)))
    ∧ (∀ c, c.Sublist (sortLe tableMaxDescLe
          ([Table.mk "A" 1 2, Table.mk "B" 1 2].filter fun t => 0 < t.maxSize)) →
        2 ≤ c.length → c.length ≤ 6 →
        (calculateCapacity c).1 ≤ 3 → 3 ≤ (calculateCapacity c).2 →
        c ∈ generateTableCombinations [Table.mk "A" 1 2, Table.mk "B" 1 2] 3) :=
  C5_combo_generator_exact [Table.mk "A" 1 2, Table.mk "B" 1 2] 3 (by decide)

theorem mem_foldr_if_append {α β : Type} (P : β → Prop) [DecidablePred P]
    (F : β → List α) (l : List β) (x : α) :
    (x ∈ l.foldr (fun b acc => if P b then F b ++ acc else acc) []) ↔
      ∃ b ∈ l, P b ∧ x ∈ F b := by
  induction l with
  | nil => simp
  | cons b bs ih =>
    simp only [List.foldr_cons]
    split
    · simp only [List.mem_append, ih]
      constructor
      · rintro (hx | ⟨b', hb', hP, hx⟩)
        · exact ⟨b, List.mem_cons_self _ _, by assumption, hx⟩
        · exact ⟨b', List.mem_cons_of_mem b hb', hP, hx⟩
      · rintro ⟨b', hb', hP, hx⟩
        rcases List.mem_cons.mp hb' with rfl | hb'
        · exact Or.inl hx
        · exact Or.inr ⟨b', hb', hP, hx⟩
    · rw [ih]
      constructor
      · rintro ⟨b', hb', hP, hx⟩
        exact ⟨b', List.mem_cons_of_mem b hb', hP, hx⟩
      · rintro ⟨b', hb', hP, hx⟩
        rcases List.mem_cons.mp hb' with rfl | hb'
        · exact absurd hP (by assumption)
        · exact ⟨b', hb', hP, hx⟩

/-- Every candidate produced by `findCandidates` is either a single-table
candidate built from a table whose capacity range admits the party size, or a
combo candidate built from a generated combination. -/
theorem findCandidates_mem_cases (tables : List Table) (bookings : List Booking)
    (d p : Int) (windows : List TimeInterval) (c : ComboCandidate)
    (hc : c ∈ findCandidates tables bookings d p windows) :
    (∃ t ∈ tables, (t.minSize ≤ p ∧ p ≤ t.maxSize) ∧
      ∃ gap ∈ sortByStart (findGapsForTable bookings t.id d windows),
        c = ComboCandidate.mk [t.id] t.minSize t.maxSize gap CandidateKind.single)
    ∨ (∃ combo ∈ generateTableCombinations tables p,
        ((calculateCapacity combo).1 ≤ p ∧ p ≤ (calculateCapacity combo).2) ∧
        ∃ gap ∈ findComboGaps bookings (combo.map Table.id) d windows,
          c = ComboCandidate.mk (combo.map Table.id) (calculateCapacity combo).1
            (calculateCapacity combo).2 gap CandidateKind.combo) := by
  rw [findCandidates] at hc
  have hc' := (sortLe_perm candORLe _).mem_iff.mp hc
  rcases List.mem_append.mp hc' with hx | hx
  · left
    have hx' := (mem_foldr_if_append
      (fun (t : Table) => t.minSize ≤ p ∧ p ≤ t.maxSize)
      (fun (t : Table) => (sortByStart (findGapsForTable bookings t.id d windows)).map
        (fun gap => ComboCandidate.mk [t.id] t.minSize t.maxSize gap
          CandidateKind.single))
      tables c).mp hx
    obtain ⟨t, ht, hP, hmem⟩ := hx'
    rcases List.mem_map.mp hmem with ⟨gap, hgap, rfl⟩
    exact ⟨t, ht, hP, gap, hgap, rfl⟩
  · right
    have hx' := (mem_foldr_if_append
      (fun (combo : List Table) =>
        (calculateCapacity combo).1 ≤ p ∧ p ≤ (calculateCapacity combo).2)
      (fun (combo : List Table) =>
        (findComboGaps bookings (combo.map Table.id) d windows).map
        (fun gap => ComboCandidate.mk (combo.map Table.id) (calculateCapacity combo).1
          (calculateCapacity combo).2 gap CandidateKind.combo))
      (generateTableCombinations tables p) c).mp hx
    obtain ⟨combo, hcombo, hP, hmem⟩ := hx'
    rcases List.mem_map.mp hmem with ⟨gap, hgap, rfl⟩
    exact ⟨combo, hcombo, hP, gap, hgap, rfl⟩

/-- C8 (amended): candidate generation has *no* special case for a party of
one: a single-table candidate exists only for a table with
`minCapacity ≤ partySize ≤ maxCapacity`, so a table with `minCapacity > 1`
never yields a single candidate for a party of 1 even when it has a fitting
gap (see the counterexample for the original claim). -/
theorem C8_single_requires_min_capacity (tables : List Table)
    (bookings : List Booking) (d p : Int) (windows : List TimeInterval) :
    ∀ c ∈ findCandidates tables bookings d p windows,
      c.kind = CandidateKind.single →
        ∃ t ∈ tables, c.tableIds = [t.id] ∧ t.minSize ≤ p ∧ p ≤ t.maxSize := by
  intro c hc hkind
  rcases findCandidates_mem_cases tables bookings d p windows c hc with hx | hx
  · obtain ⟨t, ht, hP, gap, hgap, rfl⟩ := hx
    exact ⟨t, ht, rfl, hP⟩
  · obtain ⟨combo, hcombo, hP, gap, hgap, rfl⟩ := hx
    cases hkind

/-- C8 counterexample: one table `T1` with capacity range `[2, 4]`, no
bookings, window `[0, 6000000)`, duration 30, party size 1.  The table has a
fitting free gap, yet `findCandidates` returns no candidate at all: a party
of one is *not* treated as fitting a table with `maxCapacity ≥ 1` when
`minCapacity > 1`. -/
theorem C8_counterexample :
    findCandidates [Table.mk "T1" 2 4] [] 30 1 [TimeInterval.mk 0 6000000] = []
    ∧ findGapsForTable [] "T1" 30 [TimeInterval.mk 0 6000000]
        = [TimeInterval.mk 0 6000000] := by
  constructor
  · decide
  · decide

/-- C8 witness: the amended theorem applied to a table with
`minCapacity = 1`, which does yield a single candidate for a party of 1. -/
theorem C8_witness :
    ∃ t ∈ [Table.mk "T1" 1 2],
      (ComboCandidate.mk ["T1"] 1 2 (TimeInterval.mk 0 6000000)
        CandidateKind.single).tableIds = [t.id] ∧ t.minSize ≤ 1 ∧ 1 ≤ t.maxSize :=
  C8_single_requires_min_capacity [Table.mk "T1" 1 2] [] 30 1
    [TimeInterval.mk 0 6000000]
    (ComboCandidate.mk ["T1"] 1 2 (TimeInterval.mk 0 6000000) CandidateKind.single)
    (by decide) (by decide)

/-- C7: the idempotency store's `get` returns `none` for an unknown key; for
an expired entry (`expiresAt < now`) it returns `none` after lazily deleting
the expired entries; for a known unexpired entry it returns the cached
booking when the payload fingerprint matches and fails with `invalid_input`
when it differs; and `set` writes an entry whose expiry is exactly 60 seconds
(60000 ms) after the write instant. -/
theorem C7_idempotency_get_behaviour (hashPayload : String → String)
    (store : List Idempotency) (now : Int) (key payload : String) :
    (repoFindById store key = none →
      idemGet hashPayload store now key payload = Except.ok (none, store))
    ∧ (∀ entry, repoFindById store key = some entry →
        (entry.expiresAt < now →
          idemGet hashPayload store now key payload
            = Except.ok (none, store.filter fun e => ¬ (e.expiresAt < now)))
        ∧ (¬ entry.expiresAt < now → hashPayload payload = entry.payloadHash →
          idemGet hashPayload store now key payload
            = Except.ok (some entry.booking, store))
        ∧ (¬ entry.expiresAt < now → hashPayload payload ≠ entry.payloadHash →
          idemGet hashPayload store now key payload
            = Except.error ApiError.invalidInput))
    ∧ (∀ booking,
        idemSet hashPayload store now key booking payload
          = (store.filter fun e => ¬ (e.id == key))
              ++ [Idempotency.mk key (hashPayload payload) (now + 60 * 1000) booking]) := by
  refine ⟨?_, ?_, ?_⟩
  · intro hnone
    rw [idemGet, hnone]
  · intro entry hsome
    refine ⟨?_, ?_, ?_⟩
    · intro hexp
      rw [idemGet, hsome]
      simp only [if_pos hexp]
      rfl
    · intro hexp hmatch
      rw [idemGet, hsome]
      simp only [if_neg hexp]
      rw [if_neg (by simpa using hmatch)]
    · intro hexp hdiff
      rw [idemGet, hsome]
      simp only [if_neg hexp]
      rw [if_pos hdiff]
  · intro booking
    rfl

/-- C7 witness: a one-entry store, applying the mismatch branch of the
theorem: reusing the key with a different payload fails with
`invalid_input`. -/
theorem C7_witness :
    (repoFindById
        [Idempotency.mk "K" "pay1" 100000 (Booking.mk ["T1"] 0 3600000 BookingStatus.confirmed)]
        "K"
      = some (Idempotency.mk "K" "pay1" 100000
          (Booking.mk ["T1"] 0 3600000 BookingStatus.confirmed)))
    ∧ idemGet (fun r => r)
        [Idempotency.mk "K" "pay1" 100000 (Booking.mk ["T1"] 0 3600000 BookingStatus.confirmed)]
        50000 "K" "pay2"
      = Except.error ApiError.invalidInput := by
  constructor
  · rfl
  · exact ((C7_idempotency_get_behaviour (fun r => r)
      [Idempotency.mk "K" "pay1" 100000 (Booking.mk ["T1"] 0 3600000 BookingStatus.confirmed)]
      50000 "K" "pay2").2.1
      (Idempotency.mk "K" "pay1" 100000 (Booking.mk ["T1"] 0 3600000 BookingStatus.confirmed))
      (by rfl)).2.2 (by decide) (by decide)

theorem charListLe_cons_iff (x y : Char) (xs ys : List Char) :
    charListLe (x :: xs) (y :: ys) = true ↔
      x.toNat < y.toNat ∨
        (¬ x.toNat < y.toNat ∧ ¬ y.toNat < x.toNat ∧ charListLe xs ys = true) := by
  simp only [charListLe]
  by_cases h1 : x.toNat < y.toNat
  · simp [h1]
  · by_cases h2 : y.toNat < x.toNat
    · simp [h1, h2]
    · simp [h1, h2]

theorem charListLe_total (a : List Char) :
    ∀ b, charListLe a b = true ∨ charListLe b a = true := by
  induction a with
  | nil => intro b; left; rfl
  | cons x xs ih =>
    intro b
    cases b with
    | nil => right; rfl
    | cons y ys =>
      rw [charListLe_cons_iff, charListLe_cons_iff]
      by_cases h1 : x.toNat < y.toNat
      · left; exact Or.inl h1
      · by_cases h2 : y.toNat < x.toNat
        · right; exact Or.inl h2
        · rcases ih ys with h | h
          · exact Or.inl (Or.inr ⟨h1, h2, h⟩)
          · exact Or.inr (Or.inr ⟨h2, h1, h⟩)

theorem charListLe_trans (a : List Char) :
    ∀ b c, charListLe a b = true → charListLe b c = true →
      charListLe a c = true := by
  induction a with
  | nil => intro b c _ _; rfl
  | cons x xs ih =>
    intro b c hab hbc
    cases b with
    | nil => simp [charListLe] at hab
    | cons y ys =>
      cases c with
      | nil => simp [charListLe] at hbc
      | cons z zs =>
        rw [charListLe_cons_iff] at hab hbc ⊢
        rcases hab with hab | ⟨hxy1, hxy2, hab⟩
        · rcases hbc with hbc | ⟨hyz1, hyz2, _⟩
          · exact Or.inl (by omega)
          · exact Or.inl (by omega)
        · rcases hbc with hbc | ⟨hyz1, hyz2, hbc⟩
          · exact Or.inl (by omega)
          · exact Or.inr ⟨by omega, by omega, ih ys zs hab hbc⟩

theorem strLe_total (a b : String) : strLe a b = true ∨ strLe b a = true :=
  charListLe_total a.data b.data

theorem strLe_trans (a b c : String) (h1 : strLe a b = true)
    (h2 : strLe b c = true) : strLe a c = true :=
  charListLe_trans a.data b.data c.data h1 h2

theorem lockAcquireKeys_append (a b : List Step) :
    lockAcquireKeys (a ++ b) = lockAcquireKeys a ++ lockAcquireKeys b :=
  List.filterMap_append a b _

/-- Exhaustive enumeration of the traces and outcomes of the commit pipeline
when a candidate exists. -/
theorem controllerCreateBooking_cases (req : CreateBookingRequest)
    (key : Option String) (env : CommitEnv) (cand : ComboCandidate)
    (hc : env.candidate = some cand) :
    ∃ t₀, (t₀ = [] ∨ t₀ = [Step.idemGet]) ∧
    (controllerCreateBooking req key env = ([], Outcome.rejected ApiError.invalidInput)
     ∨ controllerCreateBooking req key env
        = ([Step.idemGet], Outcome.rejected ApiError.invalidInput)
     ∨ controllerCreateBooking req key env = ([Step.idemGet], Outcome.replayed)
     ∨ controllerCreateBooking req key env = (t₀, Outcome.rejected ApiError.invalidInput)
     ∨ controllerCreateBooking req key env
        = (t₀ ++ [Step.readRestaurant], Outcome.rejected ApiError.notFound)
     ∨ controllerCreateBooking req key env
        = (t₀ ++ [Step.readRestaurant, Step.readSector],
           Outcome.rejected ApiError.notFound)
     ∨ controllerCreateBooking req key env
        = (t₀ ++ [Step.readRestaurant, Step.readSector, Step.readBookings,
            Step.readBlackouts, Step.candidateSearch],
           Outcome.rejected ApiError.noCapacity)
     ∨ controllerCreateBooking req key env
        = (t₀ ++ [Step.readRestaurant, Step.readSector, Step.readBookings,
            Step.readBlackouts, Step.candidateSearch,
            Step.lockAcquire (createLockKey req.restaurantId req.sectorId
              cand.tableIds cand.interval.start)],
           Outcome.rejected ApiError.tableLocked)
     ∨ (controllerCreateBooking req key env
        = (t₀ ++ [Step.readRestaurant, Step.readSector, Step.readBookings,
            Step.readBlackouts, Step.candidateSearch,
            Step.lockAcquire (createLockKey req.restaurantId req.sectorId
              cand.tableIds cand.interval.start),
            Step.readBookingsReverify, Step.readBlackoutsReverify,
            Step.lockRelease],
           Outcome.rejected ApiError.noCapacity)
        ∧ env.lockTimeout = false)
     ∨ (controllerCreateBooking req key env
        = (t₀ ++ [Step.readRestaurant, Step.readSector, Step.readBookings,
            Step.readBlackouts, Step.candidateSearch,
            Step.lockAcquire (createLockKey req.restaurantId req.sectorId
              cand.tableIds cand.interval.start),
            Step.readBookingsReverify, Step.readBlackoutsReverify,
            Step.persistBooking]
            ++ (if key.isSome then [Step.idemSet] else []) ++ [Step.lockRelease],
           Outcome.created)
        ∧ env.lockTimeout = false)) := by
  obtain ⟨idem, rex, sok, cnd, lto, rvo⟩ := env
  replace hc : cnd = some cand := hc
  subst hc
  rcases key with _ | k
  · -- no idempotency key: the controller rejects at the header check
    exact ⟨[], Or.inl rfl, Or.inl rfl⟩
  · refine ⟨[Step.idemGet], Or.inr rfl, ?_⟩
    unfold controllerCreateBooking
    by_cases hblank : (keyBlank k) = true
    · rw [if_pos (by simpa using hblank)]
      exact Or.inl rfl
    · rw [if_neg (by simpa using hblank)]
      by_cases hzod : zodCreateOk req = true
      · rw [if_neg (by simpa using hzod)]
        unfold serviceCreateBooking
        by_cases hd15 : (req.durationMinutes % 15 == 0) = true
        · rw [if_neg (by simpa using hd15)]
          by_cases hdr : req.durationMinutes < 30 ∨ 180 < req.durationMinutes
          · rw [if_pos (by simpa using hdr)]
            exact Or.inl rfl
          · rw [if_neg (by simpa using hdr)]
            cases idem with
            | mismatch => exact Or.inr (Or.inl rfl)
            | hit => exact Or.inr (Or.inr (Or.inl rfl))
            | miss =>
              unfold createBookingAfterIdem
              by_cases hdate : parseISOValid req.dateY req.dateM req.dateD = true
              · have hd : ¬¬(parseISOValid req.dateY req.dateM req.dateD = true) := by
                  simp [hdate]
                rw [if_neg hd]
                cases rex with
                | false =>
                  exact Or.inr (Or.inr (Or.inr (Or.inr (Or.inl rfl))))
                | true =>
                  cases sok with
                  | false =>
                    exact Or.inr (Or.inr (Or.inr (Or.inr (Or.inr (Or.inl rfl)))))
                  | true =>
                    cases lto with
                    | true =>
                      exact Or.inr (Or.inr (Or.inr (Or.inr (Or.inr (Or.inr
                        (Or.inr (Or.inl rfl)))))))
                    | false =>
                      cases rvo with
                      | false =>
                        exact Or.inr (Or.inr (Or.inr (Or.inr (Or.inr (Or.inr
                          (Or.inr (Or.inr (Or.inl ⟨rfl, rfl⟩))))))))
                      | true =>
                        exact Or.inr (Or.inr (Or.inr (Or.inr (Or.inr (Or.inr
                          (Or.inr (Or.inr (Or.inr ⟨rfl, rfl⟩))))))))
              · rw [if_pos hdate]
                exact Or.inr (Or.inr (Or.inr (Or.inl rfl)))
        · rw [if_pos (by simpa using hd15)]
          exact Or.inl rfl
      · rw [if_pos (by simpa using hzod)]
        exact Or.inl rfl

/-- C6 (amended): when committing a candidate, the protocol sorts the
candidate's table ids lexicographically but joins them into a *single*
composite lock key `restaurantId|sectorId|id1+...+idn|start` and acquires at
most one lock — not one lock per resource.  Every acquired key is that
composite key, the joined ids are the sorted permutation of the candidate's
ids, and on a timeout no lock is held and nothing is released. -/
theorem C6_single_composite_lock (req : CreateBookingRequest)
    (key : Option String) (env : CommitEnv) (cand : ComboCandidate)
    (hc : env.candidate = some cand) :
    ((lockAcquireKeys (controllerCreateBooking req key env).1).length ≤ 1)
    ∧ (∀ k ∈ lockAcquireKeys (controllerCreateBooking req key env).1,
        k = createLockKey req.restaurantId req.sectorId cand.tableIds
          cand.interval.start)
    ∧ List.Perm (sortLe strLe cand.tableIds) cand.tableIds
    ∧ (sortLe strLe cand.tableIds).Pairwise (fun a b => strLe a b = true)
    ∧ (env.lockTimeout = true →
        Step.lockRelease ∉ (controllerCreateBooking req key env).1
        ∧ (lockAcquireKeys (controllerCreateBooking req key env).1 ≠ [] →
            (controllerCreateBooking req key env).2
              = Outcome.rejected ApiError.tableLocked)) := by
  obtain ⟨t₀, ht₀, hcases⟩ := controllerCreateBooking_cases req key env cand hc
  refine ⟨?_, ?_, sortLe_perm _ _,
    sortLe_pairwise _ strLe_trans strLe_total _, ?_⟩
  · rcases ht₀ with rfl | rfl <;>
      rcases hcases with h | h | h | h | h | h | h | h | ⟨h, -⟩ | ⟨h, -⟩ <;>
      rw [h] <;> rcases key with _ | k2 <;>
      simp [lockAcquireKeys_append, lockAcquireKeys, List.filterMap]
  · rcases ht₀ with rfl | rfl <;>
      rcases hcases with h | h | h | h | h | h | h | h | ⟨h, -⟩ | ⟨h, -⟩ <;>
      rw [h] <;> rcases key with _ | k2 <;>
      simp [lockAcquireKeys_append, lockAcquireKeys, List.filterMap]
  · intro hlto
    rcases ht₀ with rfl | rfl <;>
      rcases hcases with h | h | h | h | h | h | h | h | ⟨h, hfl⟩ | ⟨h, hfl⟩ <;>
      first
        | (rw [hlto] at hfl; cases hfl)
        | (rw [h]
           refine ⟨?_, ?_⟩
           · simp [lockAcquireKeys]
           · intro hk
             first
               | rfl
               | (exfalso
                  apply hk
                  simp [lockAcquireKeys_append, lockAcquireKeys, List.filterMap]))

/-- C6 counterexample: a combo candidate on tables `["B", "A"]`.  The commit
pipeline performs exactly one lock acquisition, on the composite key
`"R1|S1|A+B|0"`; it does not acquire one lock per resource (two tables, one
acquisition), refuting the claimed per-resource sequential acquisition. -/
theorem C6_counterexample :
    lockAcquireKeys
        (controllerCreateBooking
          (CreateBookingRequest.mk "R1" "S1" 4 60 2025 10 22) (some "K")
          (CommitEnv.mk IdemLookup.miss true true
            (some (ComboCandidate.mk ["B", "A"] 2 6 (TimeInterval.mk 0 3600000)
              CandidateKind.combo)) false true)).1
      = ["R1|S1|A+B|0"]
    ∧ (ComboCandidate.mk ["B", "A"] 2 6 (TimeInterval.mk 0 3600000)
        CandidateKind.combo).tableIds.length = 2
    ∧ (lockAcquireKeys
        (controllerCreateBooking
          (CreateBookingRequest.mk "R1" "S1" 4 60 2025 10 22) (some "K")
          (CommitEnv.mk IdemLookup.miss true true
            (some (ComboCandidate.mk ["B", "A"] 2 6 (TimeInterval.mk 0 3600000)
              CandidateKind.combo)) false true)).1).length ≠ 2 := by
  refine ⟨by decide, by decide, by decide⟩

/-- C6 witness: the amended theorem applied to a concrete timed-out commit
attempt on the combo `["B", "A"]`. -/
theorem C6_witness :
    ((lockAcquireKeys (controllerCreateBooking
        (CreateBookingRequest.mk "R1" "S1" 4 60 2025 10 22) (some "K")
        (CommitEnv.mk IdemLookup.miss true true
          (some (ComboCandidate.mk ["B", "A"] 2 6 (TimeInterval.mk 0 3600000)
            CandidateKind.combo)) true true)).1).length ≤ 1)
    ∧ (∀ k ∈ lockAcquireKeys (controllerCreateBooking
        (CreateBookingRequest.mk "R1" "S1" 4 60 2025 10 22) (some "K")
        (CommitEnv.mk IdemLookup.miss true true
          (some (ComboCandidate.mk ["B", "A"] 2 6 (TimeInterval.mk 0 3600000)
            CandidateKind.combo)) true true)).1,
        k = createLockKey "R1" "S1" ["B", "A"] 0)
    ∧ List.Perm (sortLe strLe ["B", "A"]) ["B", "A"]
    ∧ (sortLe strLe ["B", "A"]).Pairwise (fun a b => strLe a b = true)
    ∧ (true = true →
        Step.lockRelease ∉ (controllerCreateBooking
          (CreateBookingRequest.mk "R1" "S1" 4 60 2025 10 22) (some "K")
          (CommitEnv.mk IdemLookup.miss true true
            (some (ComboCandidate.mk ["B", "A"] 2 6 (TimeInterval.mk 0 3600000)
              CandidateKind.combo)) true true)).1
        ∧ (lockAcquireKeys (controllerCreateBooking
            (CreateBookingRequest.mk "R1" "S1" 4 60 2025 10 22) (some "K")
            (CommitEnv.mk IdemLookup.miss true true
              (some (ComboCandidate.mk ["B", "A"] 2 6 (TimeInterval.mk 0 3600000)
                CandidateKind.combo)) true true)).1 ≠ [] →
            (controllerCreateBooking
              (CreateBookingRequest.mk "R1" "S1" 4 60 2025 10 22) (some "K")
              (CommitEnv.mk IdemLookup.miss true true
                (some (ComboCandidate.mk ["B", "A"] 2 6 (TimeInterval.mk 0 3600000)
                  CandidateKind.combo)) true true)).2
              = Outcome.rejected ApiError.tableLocked)) :=
  C6_single_composite_lock (CreateBookingRequest.mk "R1" "S1" 4 60 2025 10 22)
    (some "K")
    (CommitEnv.mk IdemLookup.miss true true
      (some (ComboCandidate.mk ["B", "A"] 2 6 (TimeInterval.mk 0 3600000)
        CandidateKind.combo)) true true)
    (ComboCandidate.mk ["B", "A"] 2 6 (TimeInterval.mk 0 3600000)
      CandidateKind.combo)
    (by rfl)

theorem commit_reject_not15 (req : CreateBookingRequest) (key : Option String)
    (env : CommitEnv) (h15 : req.durationMinutes % 15 ≠ 0) :
    controllerCreateBooking req key env
      = ([], Outcome.rejected ApiError.invalidInput) := by
  unfold controllerCreateBooking
  by_cases hkb : keyMissingOrBlank key = true
  · rw [if_pos hkb]
  · rw [if_neg hkb]
    by_cases hzod : zodCreateOk req = true
    · rw [if_neg (by simp [hzod])]
      unfold serviceCreateBooking
      rw [if_pos (by simp [h15])]
    · rw [if_pos (by simp [hzod])]

theorem commit_reject_range (req : CreateBookingRequest) (key : Option String)
    (env : CommitEnv) (h15 : req.durationMinutes % 15 = 0)
    (hrange : req.durationMinutes < 30 ∨ 180 < req.durationMinutes) :
    controllerCreateBooking req key env
      = ([], Outcome.rejected ApiError.invalidInput) := by
  unfold controllerCreateBooking
  by_cases hkb : keyMissingOrBlank key = true
  · rw [if_pos hkb]
  · rw [if_neg hkb]
    by_cases hzod : zodCreateOk req = true
    · rw [if_neg (by simp [hzod])]
      unfold serviceCreateBooking
      rw [if_neg (by simp [h15])]
      rw [if_pos (by simp only [Bool.or_eq_true, decide_eq_true_eq]; exact hrange)]
    · rw [if_pos (by simp [hzod])]

theorem discover_reject_not15 (q : DiscoverQuery) (denv : DiscoverEnv)
    (h15 : q.duration % 15 ≠ 0) :
    discoverSeatsTrace q denv = ([], Outcome.rejected ApiError.invalidInput) := by
  unfold discoverSeatsTrace
  by_cases hzod : zodDiscoverOk q = true
  · rw [if_neg (by simp [hzod])]
    by_cases hdate : parseISOValid q.dateY q.dateM q.dateD = true
    · rw [if_neg (by simp [hdate])]
      rw [if_pos (by simp [h15])]
    · rw [if_pos (by simp [hdate])]
  · rw [if_pos (by simp [hzod])]

theorem discover_reject_range (q : DiscoverQuery) (denv : DiscoverEnv)
    (h15 : q.duration % 15 = 0) (hrange : q.duration < 30 ∨ 180 < q.duration) :
    discoverSeatsTrace q denv = ([], Outcome.rejected ApiError.invalidInput) := by
  unfold discoverSeatsTrace
  by_cases hzod : zodDiscoverOk q = true
  · rw [if_neg (by simp [hzod])]
    by_cases hdate : parseISOValid q.dateY q.dateM q.dateD = true
    · rw [if_neg (by simp [hdate])]
      rw [if_neg (by simp [h15])]
      rw [if_pos (by simp only [Bool.or_eq_true, decide_eq_true_eq]; exact hrange)]
    · rw [if_pos (by simp [hdate])]
  · rw [if_pos (by simp [hzod])]

/-- C9 (amended): malformed durations (not a positive multiple of 15 in
[30, 180]) and Zod-level malformations (non-positive party size or duration,
blank ids, missing/blank idempotency key) are rejected with `invalid_input`
with *no* effect performed — before the idempotency store, any repository
read, candidate search or locking.  A date that matches the `YYYY-MM-DD`
shape but is not a valid calendar date, however, is rejected only *after*
the idempotency lookup (though still before any repository read, candidate
search or lock acquisition): the original "before any I/O, in particular
before the idempotency store is consulted" is false for such dates (see the
counterexample). -/
theorem C9_validation_failfast (req : CreateBookingRequest)
    (key : Option String) (env : CommitEnv) :
    (zodCreateOk req = false →
      controllerCreateBooking req key env = ([], Outcome.rejected ApiError.invalidInput))
    ∧ (req.durationMinutes % 15 ≠ 0 →
      controllerCreateBooking req key env = ([], Outcome.rejected ApiError.invalidInput))
    ∧ (req.durationMinutes % 15 = 0 →
        (req.durationMinutes < 30 ∨ 180 < req.durationMinutes) →
      controllerCreateBooking req key env = ([], Outcome.rejected ApiError.invalidInput))
    ∧ (∀ k, key = some k → keyBlank k = false → zodCreateOk req = true →
        req.durationMinutes % 15 = 0 →
        ¬ (req.durationMinutes < 30 ∨ 180 < req.durationMinutes) →
        env.idemResult = IdemLookup.miss →
        parseISOValid req.dateY req.dateM req.dateD = false →
        controllerCreateBooking req key env
          = ([Step.idemGet], Outcome.rejected ApiError.invalidInput)) := by
  refine ⟨?_, ?_, ?_, ?_⟩
  · intro hzod
    unfold controllerCreateBooking
    by_cases hkb : keyMissingOrBlank key = true
    · rw [if_pos hkb]
    · rw [if_neg hkb, if_pos (by simp [hzod])]
  · intro h15
    unfold controllerCreateBooking
    by_cases hkb : keyMissingOrBlank key = true
    · rw [if_pos hkb]
    · rw [if_neg hkb]
      by_cases hzod : zodCreateOk req = true
      · rw [if_neg (by simp [hzod])]
        unfold serviceCreateBooking
        rw [if_pos (by simp [h15])]
      · rw [if_pos (by simp [hzod])]
  · intro h15 hrange
    unfold controllerCreateBooking
    by_cases hkb : keyMissingOrBlank key = true
    · rw [if_pos hkb]
    · rw [if_neg hkb]
      by_cases hzod : zodCreateOk req = true
      · rw [if_neg (by simp [hzod])]
        unfold serviceCreateBooking
        rw [if_neg (by simp [h15])]
        rw [if_pos (by simp only [Bool.or_eq_true, decide_eq_true_eq]; exact hrange)]
      · rw [if_pos (by simp [hzod])]
  · intro k hkey hkb hzod h15 hrange hidem hdate
    subst hkey
    unfold controllerCreateBooking
    rw [if_neg (by simp [keyMissingOrBlank, hkb])]
    rw [if_neg (by simp [hzod])]
    unfold serviceCreateBooking
    rw [if_neg (by simp [h15])]
    rw [if_neg (by simp only [Bool.or_eq_true, decide_eq_true_eq]; exact hrange)]
    rw [hidem]
    unfold createBookingAfterIdem
    rw [if_pos (by simp [hdate])]

/-- C9 counterexample: a commit request with a valid duration (60) and party
size (2) but the calendar-invalid date `2025-13-45` (which matches the
`YYYY-MM-DD` regex), sent with idempotency key `"K"` that is not yet in the
store.  The pipeline consults the idempotency store (`Step.idemGet` is
performed) *before* rejecting the date with `invalid_input`: the malformed
date is not rejected before the idempotency store is consulted. -/
theorem C9_counterexample :
    controllerCreateBooking (CreateBookingRequest.mk "R1" "S1" 2 60 2025 13 45)
        (some "K")
        (CommitEnv.mk IdemLookup.miss true true none false true)
      = ([Step.idemGet], Outcome.rejected ApiError.invalidInput) := by
  decide

/-- C9 witness: the amended theorem applied to a request with duration 45
minutes and party size 0 (Zod-rejected with no effects), and to the
invalid-date case. -/
theorem C9_witness :
    (zodCreateOk (CreateBookingRequest.mk "R1" "S1" 0 45 2025 10 22) = false
      → controllerCreateBooking (CreateBookingRequest.mk "R1" "S1" 0 45 2025 10 22)
          (some "K") (CommitEnv.mk IdemLookup.miss true true none false true)
        = ([], Outcome.rejected ApiError.invalidInput))
    ∧ zodCreateOk (CreateBookingRequest.mk "R1" "S1" 0 45 2025 10 22) = false
    ∧ controllerCreateBooking (CreateBookingRequest.mk "R1" "S1" 0 45 2025 10 22)
        (some "K") (CommitEnv.mk IdemLookup.miss true true none false true)
      = ([], Outcome.rejected ApiError.invalidInput) :=
  have h := (C9_validation_failfast
    (CreateBookingRequest.mk "R1" "S1" 0 45 2025 10 22) (some "K")
    (CommitEnv.mk IdemLookup.miss true true none false true)).1
  ⟨h, by decide, h (by decide)⟩

/-- C10: in both the commit and the discovery pipeline, a duration that is a
multiple of 15 but lies outside [30, 180] is rejected with an invalid-input
error before any repository read, candidate search or locking (no effect is
performed at all); and whenever the candidate search runs, the duration is a
multiple of 15 inside [30, 180]. -/
theorem C10_duration_range (req : CreateBookingRequest) (key : Option String)
    (env : CommitEnv) (q : DiscoverQuery) (denv : DiscoverEnv) :
    (req.durationMinutes % 15 = 0 →
      (req.durationMinutes < 30 ∨ 180 < req.durationMinutes) →
      controllerCreateBooking req key env
        = ([], Outcome.rejected ApiError.invalidInput))
    ∧ (q.duration % 15 = 0 → (q.duration < 30 ∨ 180 < q.duration) →
      discoverSeatsTrace q denv = ([], Outcome.rejected ApiError.invalidInput))
    ∧ (Step.candidateSearch ∈ (controllerCreateBooking req key env).1 →
        req.durationMinutes % 15 = 0 ∧ 30 ≤ req.durationMinutes
          ∧ req.durationMinutes ≤ 180)
    ∧ (Step.candidateSearch ∈ (discoverSeatsTrace q denv).1 →
        q.duration % 15 = 0 ∧ 30 ≤ q.duration ∧ q.duration ≤ 180) := by
  refine ⟨fun h15 hrange => commit_reject_range req key env h15 hrange,
    fun h15 hrange => discover_reject_range q denv h15 hrange, ?_, ?_⟩
  · intro hmem
    by_cases h15 : req.durationMinutes % 15 = 0
    · by_cases hrange : req.durationMinutes < 30 ∨ 180 < req.durationMinutes
      · rw [commit_reject_range req key env h15 hrange] at hmem
        simp at hmem
      · exact ⟨h15, by omega⟩
    · rw [commit_reject_not15 req key env h15] at hmem
      simp at hmem
  · intro hmem
    by_cases h15 : q.duration % 15 = 0
    · by_cases hrange : q.duration < 30 ∨ 180 < q.duration
      · rw [discover_reject_range q denv h15 hrange] at hmem
        simp at hmem
      · exact ⟨h15, by omega⟩
    · rw [discover_reject_not15 q denv h15] at hmem
      simp at hmem

/-- C10 witness: duration 15 (a multiple of 15 below 30) is rejected by both
pipelines with no effects, and duration 195 likewise. -/
theorem C10_witness :
    controllerCreateBooking (CreateBookingRequest.mk "R1" "S1" 2 15 2025 10 22)
        (some "K") (CommitEnv.mk IdemLookup.miss true true none false true)
      = ([], Outcome.rejected ApiError.invalidInput)
    ∧ discoverSeatsTrace (DiscoverQuery.mk "R1" "S1" 2 195 2025 10 22)
        (DiscoverEnv.mk true true false true)
      = ([], Outcome.rejected ApiError.invalidInput) :=
  ⟨(C10_duration_range (CreateBookingRequest.mk "R1" "S1" 2 15 2025 10 22)
      (some "K") (CommitEnv.mk IdemLookup.miss true true none false true)
      (DiscoverQuery.mk "R1" "S1" 2 195 2025 10 22)
      (DiscoverEnv.mk true true false true)).1 (by decide) (by decide),
   (C10_duration_range (CreateBookingRequest.mk "R1" "S1" 2 15 2025 10 22)
      (some "K") (CommitEnv.mk IdemLookup.miss true true none false true)
      (DiscoverQuery.mk "R1" "S1" 2 195 2025 10 22)
      (DiscoverEnv.mk true true false true)).2.1 (by decide) (by decide)⟩

/-- C3 (amended): explicit cancellation *deletes* the reservation record
(after nullifying idempotency references to it) rather than mutating its
status; cancelling an id that is not (or no longer) present fails with
`not_found` rather than being an idempotent no-op.  The stored record set
therefore shrinks on every successful cancellation. -/
theorem C3_cancel_deletes_record (bookings : List BookingRec)
    (idem : List (String × Option String)) (id : String) :
    (bookingFindById bookings id = none →
      cancelBooking bookings idem id = Except.error ApiError.notFound)
    ∧ (∀ b, bookingFindById bookings id = some b →
      cancelBooking bookings idem id
        = Except.ok (bookings.filter fun x => ¬ (x.id == id),
            nullifyBookingId idem id)) := by
  constructor
  · intro hnone
    rw [cancelBooking, hnone]
  · intro b hsome
    rw [cancelBooking, hsome]
    rfl

/-- C3 counterexample: cancelling the confirmed booking `"B1"` removes its
record entirely (the stored set shrinks from one record to zero), and a
second cancellation of the same id fails with `not_found` instead of being
an idempotent no-op. -/
theorem C3_counterexample :
    cancelBooking [BookingRec.mk "B1" BookingStatus.confirmed] [] "B1"
      = Except.ok ([], [])
    ∧ cancelBooking [] [] "B1" = Except.error ApiError.notFound
    ∧ ([] : List BookingRec).length
        < [BookingRec.mk "B1" BookingStatus.confirmed].length := by
  refine ⟨by rfl, by rfl, by decide⟩

/-- C3 witness: the amended theorem applied to a one-record store. -/
theorem C3_witness :
    cancelBooking [BookingRec.mk "B1" BookingStatus.confirmed]
        [("K", some "B1")] "B1"
      = Except.ok
          ([BookingRec.mk "B1" BookingStatus.confirmed].filter
            fun x => ¬ (x.id == "B1"),
           nullifyBookingId [("K", some "B1")] "B1") :=
  (C3_cancel_deletes_record [BookingRec.mk "B1" BookingStatus.confirmed]
    [("K", some "B1")] "B1").2
    (BookingRec.mk "B1" BookingStatus.confirmed) (by rfl)

theorem setPc_self (pc : Bool → ProcPhase) (i : Bool) (v : ProcPhase) :
    setPc pc i v i = v := by simp [setPc]

theorem setPc_other (pc : Bool → ProcPhase) (i : Bool) (v : ProcPhase)
    (j : Bool) (h : j ≠ i) : setPc pc i v j = pc j := by simp [setPc, h]

theorem bool_ne_iff (j i : Bool) : j ≠ i ↔ j = !i := by
  cases i <;> cases j <;> simp

theorem bool_not_ne (i : Bool) : (!i) ≠ i := by cases i <;> simp

theorem isEmpty_append {α : Type} (a b : List α) :
    (a ++ b).isEmpty = (a.isEmpty && b.isEmpty) := by
  cases a <;> cases b <;> simp [List.isEmpty]

theorem stillAvailable_append_false (cand : ComboCandidate)
    (blackouts : List TimeInterval) (bs l : List Booking)
    (h : stillAvailable cand blackouts bs = false) :
    stillAvailable cand blackouts (bs ++ l) = false := by
  simp only [stillAvailable, relevantBookings, List.filter_append,
    isEmpty_append] at h ⊢
  rcases Bool.and_eq_false_iff.mp h with h1 | h2
  · rw [h1]
    simp
  · rw [h2]
    simp

theorem stillAvailable_after_persist (cand : ComboCandidate)
    (blackouts : List TimeInterval) (bs : List Booking)
    (hids : cand.tableIds ≠ []) (hne : cand.interval.start < cand.interval.stop) :
    stillAvailable cand blackouts (bs ++ [candBooking cand]) = false := by
  simp only [stillAvailable, relevantBookings, List.filter_append,
    isEmpty_append]
  have hrel : (List.filter
      (fun b => b.status == BookingStatus.confirmed
        && b.tableIds.any fun tid => cand.tableIds.contains tid)
      [candBooking cand]) = [candBooking cand] := by
    rw [List.filter_cons]
    rw [if_pos ?_]
    · rfl
    · simp only [Bool.and_eq_true, beq_iff_eq, List.any_eq_true]
      refine ⟨rfl, ?_⟩
      obtain ⟨x, hx⟩ := List.exists_mem_of_ne_nil cand.tableIds hids
      exact ⟨x, hx, List.elem_eq_true_of_mem hx⟩
  rw [hrel]
  have hover : (List.filter
      (fun b => decide (overlaps cand.interval b.interval))
      [candBooking cand]) = [candBooking cand] := by
    rw [List.filter_cons]
    rw [if_pos ?_]
    · rfl
    · simp only [decide_eq_true_eq]
      exact ⟨hne, hne⟩
  rw [hover]
  simp

theorem raceInv_acquire (cand : ComboCandidate) (blackouts : List TimeInterval)
    (s : RaceState) (i : Bool) (hpc : s.pc i = ProcPhase.ready)
    (hlock : s.lock = none) (hinv : RaceInv cand blackouts s) :
    RaceInv cand blackouts
      (RaceState.mk (some i) s.bookings (setPc s.pc i ProcPhase.locked)) := by
  obtain ⟨I1, I2, I3, I4, I5, I6, I7, I8, I9⟩ := hinv
  refine ⟨?_, ?_, ?_, ?_, ?_, ?_, ?_, ?_, ?_⟩
  · intro j hj
    dsimp only at hj ⊢
    have hij : i = j := by simpa using hj
    subst hij
    left
    exact setPc_self _ _ _
  · intro j hj
    dsimp only at hj ⊢
    by_cases hji : j = i
    · subst hji; rfl
    · rw [setPc_other _ _ _ j hji] at hj
      have hcon := I2 j hj
      rw [hlock] at hcon
      cases hcon
  · intro j hj
    dsimp only at hj ⊢
    by_cases hji : j = i
    · subst hji
      rw [setPc_self] at hj
      cases hj
    · rw [setPc_other _ _ _ j hji] at hj
      exact I3 j hj
  · intro j hj
    dsimp only at hj ⊢
    by_cases hji : j = i
    · subst hji
      rw [setPc_self] at hj
      cases hj
    · rw [setPc_other _ _ _ j hji] at hj
      exact I4 j hj
  · intro j hj
    dsimp only at hj ⊢
    by_cases hji : j = i
    · subst hji
      rw [setPc_self] at hj
      cases hj
    · rw [setPc_other _ _ _ j hji] at hj
      have hcon := I2 j (Or.inr ⟨false, hj⟩)
      rw [hlock] at hcon
      cases hcon
  · intro j hj
    dsimp only at hj ⊢
    by_cases hji : j = i
    · subst hji
      rw [setPc_self] at hj
      cases hj
    · rw [setPc_other _ _ _ j hji] at hj
      have hsucc := I6 j hj
      have hji' : (!j) = i := by
        cases i <;> cases j <;> simp_all
      rw [hji', hpc] at hsucc
      cases hsucc
  · intro hfalse
    dsimp only at hfalse ⊢
    obtain ⟨j, hj⟩ := I7 hfalse
    refine ⟨j, ?_⟩
    have hji : j ≠ i := by
      intro h
      subst h
      rw [hpc] at hj
      cases hj
    rw [setPc_other _ _ _ j hji]
    exact hj
  · rintro ⟨h1, h2⟩
    dsimp only at h1 h2
    by_cases hi : i = true
    · subst hi
      rw [setPc_self] at h1
      cases h1
    · have hi' : i = false := by cases i <;> simp_all
      subst hi'
      rw [setPc_self] at h2
      cases h2
  · intro j hj
    dsimp only at hj ⊢
    by_cases hji : j = i
    · subst hji
      rw [setPc_self] at hj
      cases hj
    · rw [setPc_other _ _ _ j hji] at hj
      have hI9 := (I9 j hj).1
      have hji' : (!j) = i := by
        cases i <;> cases j <;> simp_all
      rw [hji', hpc] at hI9
      cases hI9 rfl

theorem raceInv_timeout (cand : ComboCandidate) (blackouts : List TimeInterval)
    (s : RaceState) (i : Bool) (hpc : s.pc i = ProcPhase.ready)
    (hlock : s.lock = some (!i)) (hinv : RaceInv cand blackouts s) :
    RaceInv cand blackouts
      (RaceState.mk s.lock s.bookings
        (setPc s.pc i (ProcPhase.done AttemptResult.tableLocked))) := by
  obtain ⟨I1, I2, I3, I4, I5, I6, I7, I8, I9⟩ := hinv
  refine ⟨?_, ?_, ?_, ?_, ?_, ?_, ?_, ?_, ?_⟩
  · intro j hj
    dsimp only at hj ⊢
    have hji : (!i) = j := by
      rw [hlock] at hj
      simpa using hj
    subst hji
    rw [setPc_other _ _ _ _ (bool_not_ne i)]
    exact I1 (!i) hlock
  · intro j hj
    dsimp only at hj ⊢
    by_cases hji : j = i
    · subst hji
      rw [setPc_self] at hj
      rcases hj with h | ⟨b, h⟩ <;> simp at h
    · rw [setPc_other _ _ _ j hji] at hj
      exact I2 j hj
  · intro j hj
    dsimp only at hj ⊢
    by_cases hji : j = i
    · subst hji
      rw [setPc_self] at hj
      simp at hj
    · rw [setPc_other _ _ _ j hji] at hj
      exact I3 j hj
  · intro j hj
    dsimp only at hj ⊢
    by_cases hji : j = i
    · subst hji
      rw [setPc_self] at hj
      simp at hj
    · rw [setPc_other _ _ _ j hji] at hj
      exact I4 j hj
  · intro j hj
    dsimp only at hj ⊢
    by_cases hji : j = i
    · subst hji
      rw [setPc_self] at hj
      simp at hj
    · rw [setPc_other _ _ _ j hji] at hj
      have hsucc := I5 j hj
      have hji' : (!j) = i := by
        cases i <;> cases j <;> simp_all
      rw [hji', hpc] at hsucc
      cases hsucc
  · intro j hj
    dsimp only at hj ⊢
    by_cases hji : j = i
    · subst hji
      rw [setPc_self] at hj
      simp at hj
    · rw [setPc_other _ _ _ j hji] at hj
      have hsucc := I6 j hj
      have hji' : (!j) = i := by
        cases i <;> cases j <;> simp_all
      rw [hji', hpc] at hsucc
      cases hsucc
  · intro hfalse
    dsimp only at hfalse ⊢
    obtain ⟨j, hj⟩ := I7 hfalse
    have hji : j ≠ i := by
      intro h
      subst h
      rw [hpc] at hj
      cases hj
    exact ⟨j, by rw [setPc_other _ _ _ j hji]; exact hj⟩
  · rintro ⟨h1, h2⟩
    dsimp only at h1 h2
    by_cases hi : i = true
    · subst hi
      rw [setPc_self] at h1
      simp at h1
    · have hi' : i = false := by cases i <;> simp_all
      subst hi'
      rw [setPc_self] at h2
      simp at h2
  · intro j hj
    dsimp only at hj ⊢
    by_cases hji : j = i
    · subst hji
      have hne' : (!j) ≠ j := bool_not_ne j
      rw [setPc_other _ _ _ _ hne']
      rcases I1 (!j) hlock with h | ⟨b, h⟩ <;> rw [h] <;>
        exact ⟨by simp, by simp⟩
    · rw [setPc_other _ _ _ j hji] at hj
      have hI9 := (I9 j hj).1
      have hji' : (!j) = i := by
        cases i <;> cases j <;> simp_all
      rw [hji', hpc] at hI9
      cases hI9 rfl

theorem raceInv_reverify (cand : ComboCandidate) (blackouts : List TimeInterval)
    (s : RaceState) (i : Bool) (hpc : s.pc i = ProcPhase.locked)
    (hlock : s.lock = some i) (hinv : RaceInv cand blackouts s) :
    RaceInv cand blackouts
      (RaceState.mk s.lock s.bookings
        (setPc s.pc i (ProcPhase.checked
          (stillAvailable cand blackouts s.bookings)))) := by
  obtain ⟨I1, I2, I3, I4, I5, I6, I7, I8, I9⟩ := hinv
  refine ⟨?_, ?_, ?_, ?_, ?_, ?_, ?_, ?_, ?_⟩
  · intro j hj
    dsimp only at hj ⊢
    have hji : i = j := by
      rw [hlock] at hj
      simpa using hj
    subst hji
    rw [setPc_self]
    exact Or.inr ⟨_, rfl⟩
  · intro j hj
    dsimp only at hj ⊢
    by_cases hji : j = i
    · subst hji
      exact hlock
    · rw [setPc_other _ _ _ j hji] at hj
      exact I2 j hj
  · intro j hj
    dsimp only at hj ⊢
    by_cases hji : j = i
    · subst hji
      rw [setPc_self] at hj
      simp at hj
    · rw [setPc_other _ _ _ j hji] at hj
      exact I3 j hj
  · intro j hj
    dsimp only at hj ⊢
    by_cases hji : j = i
    · subst hji
      rw [setPc_self] at hj
      have hval : stillAvailable cand blackouts s.bookings = true := by
        simpa using hj
      exact hval
    · rw [setPc_other _ _ _ j hji] at hj
      have hcon := I2 j (Or.inr ⟨true, hj⟩)
      rw [hlock] at hcon
      have : j = i := by simpa using hcon.symm
      exact absurd this hji
  · intro j hj
    dsimp only at hj ⊢
    by_cases hji : j = i
    · subst hji
      rw [setPc_self] at hj
      have hval : stillAvailable cand blackouts s.bookings = false := by
        simpa using hj
      obtain ⟨k, hk⟩ := I7 hval
      have hkj : k ≠ j := by
        intro h
        subst h
        rw [hpc] at hk
        cases hk
      have hkj' : k = !j := by
        cases j <;> cases k <;> simp_all
      rw [setPc_other _ _ _ _ (bool_not_ne j)]
      rw [← hkj']
      exact hk
    · rw [setPc_other _ _ _ j hji] at hj
      have hcon := I2 j (Or.inr ⟨false, hj⟩)
      rw [hlock] at hcon
      have : j = i := by simpa using hcon.symm
      exact absurd this hji
  · intro j hj
    dsimp only at hj ⊢
    by_cases hji : j = i
    · subst hji
      rw [setPc_self] at hj
      simp at hj
    · rw [setPc_other _ _ _ j hji] at hj
      have hsucc := I6 j hj
      have hji' : (!j) = i := by
        cases i <;> cases j <;> simp_all
      rw [hji', hpc] at hsucc
      cases hsucc
  · intro hfalse
    dsimp only at hfalse ⊢
    obtain ⟨j, hj⟩ := I7 hfalse
    have hji : j ≠ i := by
      intro h
      subst h
      rw [hpc] at hj
      cases hj
    exact ⟨j, by rw [setPc_other _ _ _ j hji]; exact hj⟩
  · rintro ⟨h1, h2⟩
    dsimp only at h1 h2
    by_cases hi : i = true
    · subst hi
      rw [setPc_self] at h1
      simp at h1
    · have hi' : i = false := by cases i <;> simp_all
      subst hi'
      rw [setPc_self] at h2
      simp at h2
  · intro j hj
    dsimp only at hj ⊢
    by_cases hji : j = i
    · subst hji
      rw [setPc_self] at hj
      simp at hj
    · rw [setPc_other _ _ _ j hji] at hj
      have hji' : (!j) = i := by
        cases i <;> cases j <;> simp_all
      rw [hji', setPc_self]
      refine ⟨?_, ?_⟩ <;> intro h <;> cases h

theorem raceInv_persist (cand : ComboCandidate) (blackouts : List TimeInterval)
    (hids : cand.tableIds ≠ []) (hne : cand.interval.start < cand.interval.stop)
    (s : RaceState) (i : Bool) (hpc : s.pc i = ProcPhase.checked true)
    (hlock : s.lock = some i) (hinv : RaceInv cand blackouts s) :
    RaceInv cand blackouts
      (RaceState.mk none (s.bookings ++ [candBooking cand])
        (setPc s.pc i (ProcPhase.done AttemptResult.success))) := by
  obtain ⟨I1, I2, I3, I4, I5, I6, I7, I8, I9⟩ := hinv
  refine ⟨?_, ?_, ?_, ?_, ?_, ?_, ?_, ?_, ?_⟩
  · intro j hj
    dsimp only at hj
    cases hj
  · intro j hj
    dsimp only at hj ⊢
    by_cases hji : j = i
    · subst hji
      rw [setPc_self] at hj
      rcases hj with h | ⟨b, h⟩ <;> simp at h
    · rw [setPc_other _ _ _ j hji] at hj
      have hcon := I2 j hj
      rw [hlock] at hcon
      have : j = i := by simpa using hcon.symm
      exact absurd this hji
  · intro j hj
    dsimp only at hj ⊢
    by_cases hji : j = i
    · exact stillAvailable_after_persist cand blackouts s.bookings hids hne
    · rw [setPc_other _ _ _ j hji] at hj
      exact stillAvailable_append_false cand blackouts s.bookings _ (I3 j hj)
  · intro j hj
    dsimp only at hj ⊢
    by_cases hji : j = i
    · subst hji
      rw [setPc_self] at hj
      simp at hj
    · rw [setPc_other _ _ _ j hji] at hj
      have hcon := I2 j (Or.inr ⟨true, hj⟩)
      rw [hlock] at hcon
      have : j = i := by simpa using hcon.symm
      exact absurd this hji
  · intro j hj
    dsimp only at hj ⊢
    by_cases hji : j = i
    · subst hji
      rw [setPc_self] at hj
      simp at hj
    · rw [setPc_other _ _ _ j hji] at hj
      have hcon := I2 j (Or.inr ⟨false, hj⟩)
      rw [hlock] at hcon
      have : j = i := by simpa using hcon.symm
      exact absurd this hji
  · intro j hj
    dsimp only at hj ⊢
    by_cases hji : j = i
    · subst hji
      rw [setPc_self] at hj
      simp at hj
    · rw [setPc_other _ _ _ j hji] at hj
      have hsucc := I6 j hj
      have hji' : (!j) = i := by
        cases i <;> cases j <;> simp_all
      rw [hji', hpc] at hsucc
      simp at hsucc
  · intro hfalse
    dsimp only
    exact ⟨i, by rw [setPc_self]⟩
  · rintro ⟨h1, h2⟩
    dsimp only at h1 h2
    by_cases hi : i = true
    · subst hi
      rw [setPc_other _ _ _ false (by simp)] at h2
      have hf := I3 false h2
      have ht := I4 true hpc
      cases hf.symm.trans ht
    · have hi' : i = false := by cases i <;> simp_all
      subst hi'
      rw [setPc_other _ _ _ true (by simp)] at h1
      have hf := I3 true h1
      have ht := I4 false hpc
      cases hf.symm.trans ht
  · intro j hj
    dsimp only at hj ⊢
    by_cases hji : j = i
    · subst hji
      rw [setPc_self] at hj
      simp at hj
    · rw [setPc_other _ _ _ j hji] at hj
      have hji' : (!j) = i := by
        cases i <;> cases j <;> simp_all
      rw [hji', setPc_self]
      refine ⟨?_, ?_⟩ <;> intro h <;> simp at h

theorem raceInv_abort (cand : ComboCandidate) (blackouts : List TimeInterval)
    (s : RaceState) (i : Bool) (hpc : s.pc i = ProcPhase.checked false)
    (hlock : s.lock = some i) (hinv : RaceInv cand blackouts s) :
    RaceInv cand blackouts
      (RaceState.mk none s.bookings
        (setPc s.pc i (ProcPhase.done AttemptResult.noCapacity))) := by
  obtain ⟨I1, I2, I3, I4, I5, I6, I7, I8, I9⟩ := hinv
  refine ⟨?_, ?_, ?_, ?_, ?_, ?_, ?_, ?_, ?_⟩
  · intro j hj
    dsimp only at hj
    cases hj
  · intro j hj
    dsimp only at hj ⊢
    by_cases hji : j = i
    · subst hji
      rw [setPc_self] at hj
      rcases hj with h | ⟨b, h⟩ <;> simp at h
    · rw [setPc_other _ _ _ j hji] at hj
      have hcon := I2 j hj
      rw [hlock] at hcon
      have : j = i := by simpa using hcon.symm
      exact absurd this hji
  · intro j hj
    dsimp only at hj ⊢
    by_cases hji : j = i
    · subst hji
      rw [setPc_self] at hj
      simp at hj
    · rw [setPc_other _ _ _ j hji] at hj
      exact I3 j hj
  · intro j hj
    dsimp only at hj ⊢
    by_cases hji : j = i
    · subst hji
      rw [setPc_self] at hj
      simp at hj
    · rw [setPc_other _ _ _ j hji] at hj
      have hcon := I2 j (Or.inr ⟨true, hj⟩)
      rw [hlock] at hcon
      have : j = i := by simpa using hcon.symm
      exact absurd this hji
  · intro j hj
    dsimp only at hj ⊢
    by_cases hji : j = i
    · subst hji
      rw [setPc_self] at hj
      simp at hj
    · rw [setPc_other _ _ _ j hji] at hj
      have hcon := I2 j (Or.inr ⟨false, hj⟩)
      rw [hlock] at hcon
      have : j = i := by simpa using hcon.symm
      exact absurd this hji
  · intro j hj
    dsimp only at hj ⊢
    by_cases hji : j = i
    · subst hji
      have hsucc := I5 j hpc
      rw [setPc_other _ _ _ _ (bool_not_ne j)]
      exact hsucc
    · rw [setPc_other _ _ _ j hji] at hj
      have hsucc := I6 j hj
      have hji' : (!j) = i := by
        cases i <;> cases j <;> simp_all
      rw [hji', hpc] at hsucc
      simp at hsucc
  · intro hfalse
    dsimp only at hfalse ⊢
    obtain ⟨k, hk⟩ := I7 hfalse
    have hki : k ≠ i := by
      intro h
      subst h
      rw [hpc] at hk
      simp at hk
    exact ⟨k, by rw [setPc_other _ _ _ k hki]; exact hk⟩
  · rintro ⟨h1, h2⟩
    dsimp only at h1 h2
    by_cases hi : i = true
    · subst hi
      rw [setPc_self] at h1
      simp at h1
    · have hi' : i = false := by cases i <;> simp_all
      subst hi'
      rw [setPc_self] at h2
      simp at h2
  · intro j hj
    dsimp only at hj ⊢
    by_cases hji : j = i
    · subst hji
      rw [setPc_self] at hj
      simp at hj
    · rw [setPc_other _ _ _ j hji] at hj
      have hji' : (!j) = i := by
        cases i <;> cases j <;> simp_all
      rw [hji', setPc_self]
      refine ⟨?_, ?_⟩ <;> intro h <;> simp at h

theorem raceInv_step (cand : ComboCandidate) (blackouts : List TimeInterval)
    (hids : cand.tableIds ≠ [])
    (hne : cand.interval.start < cand.interval.stop) {s t : RaceState}
    (hstep : RaceStep cand blackouts s t)
    (hinv : RaceInv cand blackouts s) : RaceInv cand blackouts t := by
  cases hstep with
  | acquire i _ hpc hlock => exact raceInv_acquire cand blackouts s i hpc hlock hinv
  | timeout i _ hpc hlock => exact raceInv_timeout cand blackouts s i hpc hlock hinv
  | reverify i _ hpc hlock => exact raceInv_reverify cand blackouts s i hpc hlock hinv
  | persist i _ hpc hlock =>
    exact raceInv_persist cand blackouts hids hne s i hpc hlock hinv
  | abort i _ hpc hlock => exact raceInv_abort cand blackouts s i hpc hlock hinv

theorem raceInv_init (cand : ComboCandidate) (blackouts : List TimeInterval)
    (bs : List Booking) (hfeas : stillAvailable cand blackouts bs = true) :
    RaceInv cand blackouts (raceInit bs) := by
  refine ⟨?_, ?_, ?_, ?_, ?_, ?_, ?_, ?_, ?_⟩
  · intro i h
    cases h
  · intro i h
    rcases h with h | ⟨b, h⟩ <;> cases h
  · intro i h
    cases h
  · intro i h
    cases h
  · intro i h
    cases h
  · intro i h
    cases h
  · intro h
    cases hfeas.symm.trans h
  · rintro ⟨h1, -⟩
    cases h1
  · intro i h
    cases h

theorem raceInv_reach (cand : ComboCandidate) (blackouts : List TimeInterval)
    (hids : cand.tableIds ≠ [])
    (hne : cand.interval.start < cand.interval.stop) {s t : RaceState}
    (hreach : RaceReach cand blackouts s t)
    (hinv : RaceInv cand blackouts s) : RaceInv cand blackouts t := by
  induction hreach with
  | refl => exact hinv
  | tail _ hstep ih => exact raceInv_step cand blackouts hids hne hstep ih

/-- C2: two logically concurrent commit attempts race for the same feasible
candidate (same resource set and interval, hence the same lock key), over a
store that does not yet conflict with it.  In every interleaving of the lock
acquisition / timeout / re-verification / persist / release steps in which
both attempts have terminated, exactly one attempt succeeds and the other
fails with `no_capacity` or `table_locked`; it is never the case that both
create a booking. -/
theorem C2_no_double_booking (cand : ComboCandidate)
    (blackouts : List TimeInterval) (bs0 : List Booking) (s : RaceState)
    (hids : cand.tableIds ≠ [])
    (hne : cand.interval.start < cand.interval.stop)
    (hfeas : stillAvailable cand blackouts bs0 = true)
    (hreach : RaceReach cand blackouts (raceInit bs0) s)
    (r0 r1 : AttemptResult)
    (h0 : s.pc false = ProcPhase.done r0)
    (h1 : s.pc true = ProcPhase.done r1) :
    (r0 = AttemptResult.success
      ∧ (r1 = AttemptResult.noCapacity ∨ r1 = AttemptResult.tableLocked))
    ∨ (r1 = AttemptResult.success
      ∧ (r0 = AttemptResult.noCapacity ∨ r0 = AttemptResult.tableLocked)) := by
  have hinv := raceInv_reach cand blackouts hids hne hreach
    (raceInv_init cand blackouts bs0 hfeas)
  obtain ⟨I1, I2, I3, I4, I5, I6, I7, I8, I9⟩ := hinv
  cases r0 with
  | success =>
    cases r1 with
    | success => exact absurd ⟨h1, h0⟩ I8
    | noCapacity => exact Or.inl ⟨rfl, Or.inl rfl⟩
    | tableLocked => exact Or.inl ⟨rfl, Or.inr rfl⟩
  | noCapacity =>
    cases r1 with
    | success => exact Or.inr ⟨rfl, Or.inl rfl⟩
    | noCapacity =>
      have hsucc := I6 false h0
      rw [show (!false) = true from rfl, h1] at hsucc
      simp at hsucc
    | tableLocked =>
      have hsucc := I6 false h0
      rw [show (!false) = true from rfl, h1] at hsucc
      simp at hsucc
  | tableLocked =>
    cases r1 with
    | success => exact Or.inr ⟨rfl, Or.inr rfl⟩
    | noCapacity =>
      have hsucc := I6 true h1
      rw [show (!true) = false from rfl, h0] at hsucc
      simp at hsucc
    | tableLocked =>
      have hI9 := (I9 false h0).2
      rw [show (!false) = true from rfl] at hI9
      exact absurd h1 hI9

/-- C2 witness: the race theorem applied to the concrete interleaving where
attempt `false` commits first and attempt `true` then re-verifies and aborts:
attempt `false` succeeds and attempt `true` fails with `no_capacity`. -/
theorem C2_witness :
    (AttemptResult.success = AttemptResult.success
      ∧ (AttemptResult.noCapacity = AttemptResult.noCapacity
        ∨ AttemptResult.noCapacity = AttemptResult.tableLocked))
    ∨ (AttemptResult.noCapacity = AttemptResult.success
      ∧ (AttemptResult.success = AttemptResult.noCapacity
        ∨ AttemptResult.success = AttemptResult.tableLocked)) :=
  C2_no_double_booking C2cand [] [] C2s6 (by decide) (by decide) (by rfl)
    (RaceReach.tail
      (RaceReach.tail
        (RaceReach.tail
          (RaceReach.tail
            (RaceReach.tail
              (RaceReach.tail (RaceReach.refl (raceInit []))
                (RaceStep.acquire false (raceInit []) rfl rfl))
              (RaceStep.reverify false C2s1 rfl rfl))
            (RaceStep.persist false C2s2 rfl rfl))
          (RaceStep.acquire true C2s3 rfl rfl))
        (RaceStep.reverify true C2s4 rfl rfl))
      (RaceStep.abort true C2s5 rfl rfl))
    AttemptResult.success AttemptResult.noCapacity rfl rfl

end Woki
